import Mathlib

/-! Portfolio components: a verification development.

Shallow embedding of the state logic of the React components under
`src/components` (`ProjectCard.jsx`, `ContactForm.jsx`, `StackTabs.jsx`,
`Navbar.jsx`).

Conventions of the embedding:

* JavaScript numbers that hold integers are `Int`; the JavaScript `%`
  operator is the truncated remainder `Int.tmod` (sign of the dividend).
* A JavaScript string is the list of its UTF-16 code units (`JSString`), so
  `.length` is `List.length`.
* `useState` cells are fields of a state record; an event handler is a
  function from state to state; an awaited external call is a parameter
  giving its outcome.
-/

namespace Portfolio

/-! ## ProjectCard.jsx : the project carousel -/

namespace Projects

/-- State cells of `Projects` that the navigation uses: `index` (line 67) and
`visibleCount` (line 69). -/
structure State where
  index : Int
  visibleCount : Int
  deriving DecidableEq, Repr

/-- Initial state: `useState(0)` and `useState(1)`. -/
def init : State := { index := 0, visibleCount := 1 }

/-- Line 99: `const maxIndex = Math.max(0, total - visibleCount)`. -/
def maxIndex (total visibleCount : Int) : Int := max 0 (total - visibleCount)

/-- Line 102: `((i % (maxIndex + 1)) + (maxIndex + 1)) % (maxIndex + 1)`, with the
JavaScript remainder. -/
def bounded (maxIndex i : Int) : Int :=
  (Int.tmod i (maxIndex + 1) + (maxIndex + 1)).tmod (maxIndex + 1)

/-- Lines 101-104: `goto(i)` stores the bounded value in `index`. -/
def goto (total : Int) (s : State) (i : Int) : State :=
  { s with index := bounded (maxIndex total s.visibleCount) i }

/-- Line 105: `const next = () => goto(index + 1)`. -/
def next (total : Int) (s : State) : State := goto total s (s.index + 1)

/-- Line 106: `const prev = () => goto(index - 1)`. -/
def prev (total : Int) (s : State) : State := goto total s (s.index - 1)

/-- Lines 110-117: the `keydown` listener. `focusWithin` is the test
`document.activeElement && wrapRef.current?.contains(document.activeElement)`.
The four `if`s run in sequence; each handler reads `index` and `maxIndex` from
the render that installed the listener (the state `s`), and the last
`setIndex` wins. -/
def onKey (total : Int) (s : State) (focusWithin : Bool) (key : String) : State :=
  if focusWithin then
    let s1 := if key = "ArrowRight" then next total s else s
    let s2 := if key = "ArrowLeft" then { s1 with index := (prev total s).index } else s1
    let s3 := if key = "Home" then { s2 with index := (goto total s 0).index } else s2
    let s4 := if key = "End" then
      { s3 with index := (goto total s (maxIndex total s.visibleCount)).index } else s3
    s4
  else s

end Projects

/-! ## JavaScript strings -/

/-- A JavaScript string: the list of its UTF-16 code units. -/
abbrev JSString := List Nat

/-- Code units of a literal written with Lean characters (all in the Basic
Multilingual Plane, one code unit each). -/
def lit (cs : List Char) : JSString := cs.map Char.toNat

/-- ECMAScript `WhiteSpace` and `LineTerminator` code points: the characters that
`String.prototype.trim` strips and that the regular-expression class `\s`
matches. -/
def isWhiteSpace (c : Nat) : Bool :=
  c == 0x09 || c == 0x0A || c == 0x0B || c == 0x0C || c == 0x0D || c == 0x20 ||
  c == 0xA0 || c == 0x1680 || (0x2000 ≤ c && c ≤ 0x200A) || c == 0x2028 ||
  c == 0x2029 || c == 0x202F || c == 0x205F || c == 0x3000 || c == 0xFEFF

/-- `String.prototype.trim`: strips white space at both ends. -/
def trim (s : JSString) : JSString :=
  (s.dropWhile isWhiteSpace).rdropWhile isWhiteSpace

/-! ## Regular expressions of the form validation -/

namespace Regex

/-- The regular-expression constructs that occur in `ContactForm.jsx`: a
character class, a class repeated at least `min` times (`+` is `min = 1`,
`{2,}` is `min = 2`), and concatenation. -/
inductive Re where
  | cls (p : Nat → Bool)
  | rep (p : Nat → Bool) (min : Nat)
  | seq (a b : Re)

/-- Remainders left by a class repeated at least `n` times, longest match first
(greedy with backtracking). -/
def repRests (p : Nat → Bool) : Nat → JSString → List JSString
  | n, [] => if n = 0 then [[]] else []
  | n, c :: cs =>
    (if p c then repRests p (n - 1) cs else []) ++ (if n = 0 then [c :: cs] else [])

/-- All remainders of the input after a match of `re` at its start, in
backtracking order. -/
def rests : Re → JSString → List JSString
  | .cls _, [] => []
  | .cls p, c :: cs => if p c then [cs] else []
  | .rep p n, s => repRests p n s
  | .seq a b, s => (rests a s).flatMap (rests b)

/-- `/^re$/.test(s)`: some match of `re` at the start consumes the whole input. -/
def test (re : Re) (s : JSString) : Bool := (rests re s).any List.isEmpty

/-- The words a regular expression denotes (used to reason about `rests`). -/
def Matches : Re → JSString → Prop
  | .cls p, w => ∃ c, w = [c] ∧ p c = true
  | .rep p n, w => n ≤ w.length ∧ ∀ c ∈ w, p c = true
  | .seq a b, w => ∃ u v, w = u ++ v ∧ Matches a u ∧ Matches b v

end Regex

/-! ## ContactForm.jsx : the contact form -/

namespace ContactForm

open Regex

/-- The class `[^\s@]`. -/
def notSpaceAt (c : Nat) : Bool := !(isWhiteSpace c || c == 0x40)

/-- Line 31: `/^[^\s@]+@[^\s@]+\.[^\s@]{2,}$/`. -/
def emailRe : Re :=
  .seq (.rep notSpaceAt 1) (.seq (.cls (· == 0x40)) (.seq (.rep notSpaceAt 1)
    (.seq (.cls (· == 0x2E)) (.rep notSpaceAt 2))))

/-- The shape `local@domain.tld` in the words of the specification: no white
space, exactly one `@` (code unit `0x40`), a non-empty part before it, and after
it a `.` (code unit `0x2E`) with at least one character before and at least two
characters after. -/
def EmailShape (s : JSString) : Prop :=
  (∀ c ∈ s, isWhiteSpace c = false) ∧ s.count 0x40 = 1 ∧
  ∃ l d, s = l ++ 0x40 :: d ∧ l ≠ [] ∧
    ∃ a b, d = a ++ 0x2E :: b ∧ 1 ≤ a.length ∧ 2 ≤ b.length

/-- Line 16: the `form` cell; `website` is the honeypot. -/
structure Form where
  user_name : JSString
  user_email : JSString
  message : JSString
  website : JSString
  deriving DecidableEq, Repr

/-- Line 18: the `status` cell. -/
structure Status where
  submitting : Bool
  submitted : Bool
  error : String
  deriving DecidableEq, Repr

/-- A JavaScript object used as a map from field name to message: its own keys
in insertion order. -/
abbrev ErrorMap := List (String × String)

/-- Property assignment `obj[k] = v`: replaces the value of an existing key,
appends a new key otherwise. -/
def ErrorMap.assign (m : ErrorMap) (k v : String) : ErrorMap :=
  if m.any (fun e => e.1 == k) then m.map (fun e => if e.1 == k then (k, v) else e)
  else m ++ [(k, v)]

/-- `Object.keys(obj)`. -/
def ErrorMap.keys (m : ErrorMap) : List String := m.map Prod.fst

/-- Lines 26-34 of `validate`: the object `next`. -/
def validateErrors (form : Form) : ErrorMap :=
  let next : ErrorMap := []
  let next := if (trim form.user_name).isEmpty then next.assign "user_name" "Le nom est requis."
    else next
  let next :=
    if (trim form.user_email).isEmpty then next.assign "user_email" "L'email est requis."
    else if !test emailRe form.user_email then
      next.assign "user_email" "Format d'email invalide."
    else next
  let next :=
    if (trim form.message).isEmpty || decide ((trim form.message).length < 10) then
      next.assign "message" "Message trop court (min. 10 caractères)."
    else next
  next

/-- The component state, with a counter of calls to `emailjs.sendForm`. -/
structure State where
  form : Form
  errors : ErrorMap
  status : Status
  relayCalls : Nat
  deriving DecidableEq, Repr

/-- Lines 16-18: initial cells. -/
def init : State :=
  { form := { user_name := [], user_email := [], message := [], website := [] }
    errors := []
    status := { submitting := false, submitted := false, error := "" }
    relayCalls := 0 }

/-- Lines 25-38: `validate` stores `next` in `errors` and returns whether it has
no key. -/
def validate (s : State) : State × Bool :=
  let next := validateErrors s.form
  ({ s with errors := next }, decide (next.keys.length = 0))

/-- Lines 45-67: `handleSubmit`. `relayOk` is the outcome of the awaited
`emailjs.sendForm` call (resolved or rejected). -/
def handleSubmit (relayOk : Bool) (s : State) : State :=
  if !s.form.website.isEmpty then
    { s with status := { submitting := false, submitted := true, error := "" } }
  else
    let (s, ok) := validate s
    if !ok then s
    else
      let s := { s with status := { submitting := true, submitted := false, error := "" } }
      let s := { s with relayCalls := s.relayCalls + 1 }
      if relayOk then
        let s := { s with status := { submitting := false, submitted := true, error := "" } }
        { s with form := { user_name := [], user_email := [], message := [], website := [] } }
      else
        { s with status := { submitting := false, submitted := false,
                             error := "L'envoi a échoué. Réessayez ou écrivez-moi par email." } }

end ContactForm

/-! ## StackTabs.jsx : category tabs and auto-advance -/

namespace StackTabs

/-- A record of the `data` prop; `subtitle` is the category key and may be
missing. -/
structure TechRecord where
  name : String
  subtitle : Option String
  deriving DecidableEq, Repr

/-- Lines 24-28: keys of the `Map` filled with every truthy `subtitle`, in
insertion order. -/
def categories (data : List TechRecord) : List String :=
  data.foldl (fun set item =>
    match item.subtitle with
    | some sub => if sub ≠ "" then (if sub ∈ set then set else set ++ [sub]) else set
    | none => set) []

/-- Lines 31-34: `data.filter((item) => item.subtitle === activeTab)`. -/
def visibleCards (data : List TechRecord) (activeTab : String) : List TechRecord :=
  data.filter (fun item => item.subtitle == some activeTab)

/-- The `useState` cells: `activeTab` (line 30), `cardWidth` (line 39),
`wantsPlay` (line 60), `isPlaying` (line 61). -/
structure State where
  activeTab : String
  cardWidth : Int
  wantsPlay : Bool
  isPlaying : Bool
  deriving DecidableEq, Repr

/-- Line 69: the value the autoplay effect stores in `isPlaying`. -/
def autoplayValue (data : List TechRecord) (reducedMotion : Bool) (s : State) : Bool :=
  s.wantsPlay && !reducedMotion && decide ((visibleCards data s.activeTab).length > 4)

/-- Line 172: the `disabled` attribute of the play button. -/
def playDisabled (data : List TechRecord) (reducedMotion : Bool) (s : State) : Bool :=
  reducedMotion || decide ((visibleCards data s.activeTab).length ≤ 4)

/-- State after mount: the initial cells, after the autoplay effect of the first
render. -/
def init (data : List TechRecord) (reducedMotion : Bool) : State :=
  let s : State :=
    { activeTab := (categories data).headD "", cardWidth := 260,
      wantsPlay := false, isPlaying := false }
  { s with isPlaying := autoplayValue data reducedMotion s }

/-- User and observer events. -/
inductive Event where
  /-- A click on the play button (line 168). -/
  | pressPlay
  /-- `setActiveTab(cat)`, from a click on a tab (line 151) or from the keyboard
  (line 129). -/
  | selectTab (cat : String)
  /-- `mouseenter` or `focusin` on the strip (lines 101-103). -/
  | enter
  /-- The resize observer of the first card reports the rounded width `w`
  (line 48). -/
  | cardResize (w : Int)
  deriving DecidableEq, Repr

/-- The state update made by the handler of an event. -/
def handle (data : List TechRecord) (reducedMotion : Bool) (s : State) : Event → State
  | .pressPlay =>
    if playDisabled data reducedMotion s then s else { s with wantsPlay := !s.wantsPlay }
  | .selectTab cat => { s with activeTab := cat }
  | .enter => { s with isPlaying := false }
  | .cardResize w => { s with cardWidth := max 1 w }

/-- One event followed by the re-render: the autoplay effect (lines 68-70) runs
again exactly when one of its dependencies `wantsPlay`, `reducedMotion`,
`visibleCards.length` has changed. -/
def step (data : List TechRecord) (reducedMotion : Bool) (s : State) (e : Event) : State :=
  let s1 := handle data reducedMotion s e
  if s1.wantsPlay ≠ s.wantsPlay ∨
      (visibleCards data s1.activeTab).length ≠ (visibleCards data s.activeTab).length then
    { s1 with isPlaying := autoplayValue data reducedMotion s1 }
  else s1

/-- A sequence of events. -/
def run (data : List TechRecord) (reducedMotion : Bool) (s : State) (evs : List Event) : State :=
  evs.foldl (step data reducedMotion) s

/-- Sample data: five records of category `A` followed by six of category `B`. -/
def fiveAndSix : List TechRecord :=
  List.replicate 5 { name := "a", subtitle := some "A" } ++
  List.replicate 6 { name := "b", subtitle := some "B" }

end StackTabs

namespace StackTabs

/-- Lines 120-126 of `onTabKeyDown`: the variable `next` after the four key tests,
for `count` categories and the tab index `idx`. -/
def tabTarget (count : Int) (key : String) (idx : Int) : Int :=
  let next := idx
  let next := if key = "ArrowRight" then Int.tmod (idx + 1) count else next
  let next := if key = "ArrowLeft" then Int.tmod (idx - 1 + count) count else next
  let next := if key = "Home" then 0 else next
  let next := if key = "End" then count - 1 else next
  next

/-- Lines 119-132: `onTabKeyDown(e, idx)` with `key = e.key`. `idx` is the index
of the rendered tab that received the key, so `categories[next]` exists; a
missing entry is mapped to no change. -/
def onTabKeyDown (data : List TechRecord) (s : State) (key : String) (idx : Nat) : State :=
  let count := (categories data).length
  if count = 0 then s
  else
    let next := tabTarget count key idx
    if next ≠ idx then
      match (categories data)[next.toNat]? with
      | some cat => { s with activeTab := cat }
      | none => s
    else s

/-- The scroll container as the tick reads it: `scrollLeft`, `clientWidth`,
`scrollWidth`. -/
structure Scroller where
  scrollLeft : Int
  clientWidth : Int
  scrollWidth : Int
  deriving DecidableEq, Repr

/-- The scroll call made by a tick: `scrollTo` with a `left` offset or `scrollBy`
with a `left` delta. -/
inductive ScrollRequest where
  | scrollTo (left : Int)
  | scrollBy (left : Int)
  deriving DecidableEq, Repr

/-- Lines 82-89: one tick of the auto-advance timer, with `step = cardWidth`. -/
def tick (cardWidth : Int) (wrap : Scroller) : ScrollRequest :=
  let step := cardWidth
  let atEnd := decide (wrap.scrollLeft + wrap.clientWidth ≥ wrap.scrollWidth - step)
  if atEnd then .scrollTo 0 else .scrollBy step

/-- The offset a scroll call asks for. -/
def ScrollRequest.target (wrap : Scroller) : ScrollRequest → Int
  | .scrollTo left => left
  | .scrollBy left => wrap.scrollLeft + left

/-- The truthy subtitles of the data list, in order (with repetitions). -/
def truthySubtitles (data : List TechRecord) : List String :=
  data.filterMap (fun item =>
    match item.subtitle with
    | some sub => if sub ≠ "" then some sub else none
    | none => none)

/-- In the words of the specification: the distinct elements of a list in order
of first occurrence. -/
def firstSeen : List String → List String
  | [] => []
  | x :: xs => x :: (firstSeen xs).filter (fun y => y ≠ x)

end StackTabs

/-! ## Navbar.jsx : the scroll spy -/

namespace Navbar

/-- Lines 11-20: the five navigation items; each observed section is the element
found by `document.getElementById(item.id)`. -/
inductive NavItem where
  | home
  | about
  | stack
  | projects
  | contact
  deriving DecidableEq, Repr

/-- The `id` of an item, which is the `id` of its section element. -/
def NavItem.id : NavItem → String
  | .home => "home"
  | .about => "about"
  | .stack => "stack"
  | .projects => "projects"
  | .contact => "contact"

/-- An `IntersectionObserverEntry`: the observed section, `isIntersecting` and
`intersectionRatio` (only compared, so a rational number). -/
structure Entry where
  target : NavItem
  isIntersecting : Bool
  intersectionRatio : ℚ
  deriving DecidableEq

/-- The `useState` cells of `Navbar` (lines 5-6). -/
structure State where
  isOpen : Bool
  activeId : String
  deriving DecidableEq, Repr

/-- Lines 5-6: initial cells. -/
def init : State := { isOpen := false, activeId := "home" }

/-- Line 65: the comparator `(a, b) => b.intersectionRatio - a.intersectionRatio`
is not positive, so `a` stays before `b`. -/
def moreVisible (a b : Entry) : Prop := b.intersectionRatio ≤ a.intersectionRatio

instance : DecidableRel moreVisible := fun a b =>
  inferInstanceAs (Decidable (b.intersectionRatio ≤ a.intersectionRatio))

instance : IsTotal Entry moreVisible :=
  ⟨fun a b => le_total b.intersectionRatio a.intersectionRatio⟩

instance : IsTrans Entry moreVisible :=
  ⟨fun _ _ _ hab hbc => le_trans hbc hab⟩

/-- Lines 63-65: the intersecting entries, stably sorted by decreasing ratio; the
first one, if any. -/
def mostVisible (entries : List Entry) : Option Entry :=
  ((entries.filter (fun e => e.isIntersecting)).insertionSort moreVisible).head?

/-- Lines 61-67: the observer callback. -/
def onIntersect (s : State) (entries : List Entry) : State :=
  match mostVisible entries with
  | some visible => if visible.target.id ≠ "" then { s with activeId := visible.target.id } else s
  | none => s

end Navbar

/-! ## ProjectCard.jsx : events, live region and gradients -/

namespace Projects

/-- Navigation and resize events of the carousel. `resize count` is the callback
of the container observer (lines 90-94) with `count = Math.floor(w / cardWidth)`. -/
inductive Event where
  | next
  | prev
  | goto (i : Int)
  | resize (count : Int)
  deriving DecidableEq, Repr

/-- The state after one event; a resize stores `Math.max(1, count)` in
`visibleCount` (lines 92-93). -/
def step (total : Int) (s : State) : Event → State
  | .next => next total s
  | .prev => prev total s
  | .goto i => goto total s i
  | .resize count => { s with visibleCount := max 1 count }

/-- A sequence of events. -/
def run (total : Int) (s : State) (evs : List Event) : State :=
  evs.foldl (step total) s

/-- The bounds that every event preserves. -/
def Bounds (total : Int) (s : State) : Prop :=
  0 ≤ s.index ∧ s.index ≤ max 0 (total - 1) ∧ 1 ≤ s.visibleCount

/-- Line 127: `const from = index + 1`. -/
def liveFrom (s : State) : Int := s.index + 1

/-- Line 128: `const to = Math.min(index + visibleCount, total)`. -/
def liveTo (total : Int) (s : State) : Int := min (s.index + s.visibleCount) total

/-- Lines 8-15: the palette. -/
def GRADIENTS : List String :=
  [ "linear-gradient(315deg, hsl(270 73% 53%), hsl(162 100% 58%))",
    "linear-gradient(315deg, hsl(162 100% 58%), #000)",
    "linear-gradient(315deg, hsl(270 73% 53%), #1f1f1f)",
    "linear-gradient(315deg, #1f1f1f, hsl(162 100% 58%))",
    "linear-gradient(315deg, #ffffff10, hsl(270 73% 53%))",
    "linear-gradient(315deg, hsl(270 73% 53%), #4b0082)" ]

/-- ECMAScript `ToUint32`: the integer modulo `2^32`. -/
def toUint32 (x : Int) : Nat := (x % 2 ^ 32).toNat

/-- The signed reading of a 32-bit pattern (the last step of `ToInt32`). -/
def signed32 (u : Nat) : Int := if 2 ^ 31 ≤ u then (u : Int) - 2 ^ 32 else u

/-- The JavaScript operator `a ^ b`: both operands are converted to 32 bits, the
bit patterns are combined, and the result is read as a signed 32-bit integer. -/
def xor32 (a b : Int) : Int := signed32 (toUint32 a ^^^ toUint32 b)

/-- Lines 17-21: `hashStr`; `Math.abs` is the absolute value. -/
def hashStr (str : JSString) : Int :=
  |str.foldl (fun h c => xor32 (h * 33) (c : Int)) 5381|

/-- Lines 23-26: `gradientFor`; the array access gives `none` for `undefined`. -/
def gradientFor (title : JSString) : Option String :=
  let idx := Int.tmod (hashStr title) GRADIENTS.length
  GRADIENTS[idx.toNat]?

end Projects

/-! # Theorems -/

/-! ## Carousel arithmetic -/

namespace Projects

theorem maxIndex_nonneg (total visibleCount : Int) : 0 ≤ maxIndex total visibleCount := by
  unfold maxIndex; exact le_max_left _ _

theorem tmod_gt_neg (i m : Int) (hm : 0 < m) : -m < Int.tmod i m := by
  obtain ⟨k, rfl⟩ := Int.eq_ofNat_of_zero_le (le_of_lt hm)
  have hk : 0 < k := by exact_mod_cast hm
  cases i with
  | ofNat n =>
    have h0 : 0 ≤ Int.tmod (Int.ofNat n) (k : Int) :=
      Int.tmod_nonneg (k : Int) (Int.ofNat_nonneg n)
    have h1 : -(k : Int) < 0 := by omega
    exact lt_of_lt_of_le h1 h0
  | negSucc n =>
    have h1 : Int.tmod (Int.negSucc n) (k : Int) = -(((n + 1) % k : Nat) : Int) := rfl
    rw [h1]
    have := Nat.mod_lt (n + 1) hk
    omega

/-- The double remainder of line 102 is the Euclidean (non-negative) remainder. -/
theorem bounded_eq_emod (m i : Int) (hm : 0 ≤ m) : bounded m i = i % (m + 1) := by
  unfold bounded
  have hpos : 0 < m + 1 := by omega
  have h1 := tmod_gt_neg i (m + 1) hpos
  have h2 : 0 ≤ Int.tmod i (m + 1) + (m + 1) := by omega
  rw [Int.tmod_eq_emod h2 (le_of_lt hpos), Int.add_emod_self, Int.tmod_def]
  rw [Int.sub_eq_add_neg, ← Int.mul_neg, Int.add_mul_emod_self_left]

theorem bounded_of_mem (m i : Int) (h0 : 0 ≤ i) (h1 : i ≤ m) : bounded m i = i := by
  rw [bounded_eq_emod m i (le_trans h0 h1)]
  exact Int.emod_eq_of_lt h0 (by omega)

theorem bounded_succ (m : Int) (hm : 0 ≤ m) : bounded m (m + 1) = 0 := by
  rw [bounded_eq_emod m _ hm]; exact Int.emod_self

theorem bounded_neg_one (m : Int) (hm : 0 ≤ m) : bounded m (-1) = m := by
  rw [bounded_eq_emod m _ hm]
  have h : (-1 : Int) % (m + 1) = (-1 + (m + 1)) % (m + 1) := by
    rw [Int.add_emod_self]
  have h' : (-1 : Int) + (m + 1) = m := by omega
  rw [h, h']
  exact Int.emod_eq_of_lt hm (by omega)

theorem bounded_range (m i : Int) (hm : 0 ≤ m) : 0 ≤ bounded m i ∧ bounded m i ≤ m := by
  rw [bounded_eq_emod m i hm]
  have h1 := Int.emod_nonneg i (show m + 1 ≠ 0 by omega)
  have h2 := Int.emod_lt_of_pos i (show 0 < m + 1 by omega)
  omega

/-- C1. For every integer `i` and all integers `total`, `visibleCount` (in
particular `total ≥ 0`, `visibleCount ≥ 1`), `goto(i)` leaves `index` in the
closed range `[0, maxIndex]` with `maxIndex = max(0, total - visibleCount)`; the
modulus `maxIndex + 1` is never zero; and when `total ≤ visibleCount` the new
index is `0` whatever `i` is. -/
theorem goto_index_in_range (total : Int) (s : State) (i : Int) :
    maxIndex total s.visibleCount = max 0 (total - s.visibleCount) ∧
    maxIndex total s.visibleCount + 1 ≠ 0 ∧
    0 ≤ (goto total s i).index ∧
    (goto total s i).index ≤ maxIndex total s.visibleCount ∧
    (total ≤ s.visibleCount → (goto total s i).index = 0) := by
  have hm := maxIndex_nonneg total s.visibleCount
  have hr := bounded_range (maxIndex total s.visibleCount) i hm
  refine ⟨rfl, by omega, hr.1, hr.2, ?_⟩
  intro hle
  have h0 : maxIndex total s.visibleCount = 0 := by
    unfold maxIndex; exact max_eq_left (by omega)
  have h1 := hr.1
  have h2 := hr.2
  show bounded (maxIndex total s.visibleCount) i = 0
  change 0 ≤ bounded (maxIndex total s.visibleCount) i at h1
  change bounded (maxIndex total s.visibleCount) i ≤ _ at h2
  omega

/-- Witness for C1: two projects, three visible cards, `goto(7)` gives `0`. -/
theorem goto_index_in_range_witness :
    (goto 2 { index := 0, visibleCount := 3 } 7).index = 0 :=
  (goto_index_in_range 2 { index := 0, visibleCount := 3 } 7).2.2.2.2 (by decide)

/-- C2. `goto(i)` is the non-negative remainder of `i` modulo `maxIndex + 1`
for every integer `i`, negative included: it is the identity on
`[0, maxIndex]`, the Home key lands on `0` and the End key on `maxIndex`,
`goto(maxIndex + 1) = 0` and `goto(-1) = maxIndex`. With `total = 6` and
`visibleCount = 3`: `maxIndex = 3`, `goto(-1) = 3`, `goto(4) = 0`. -/
theorem goto_index_eq_emod (total : Int) (s : State) (i : Int) :
    (goto total s i).index = i % (maxIndex total s.visibleCount + 1) ∧
    (0 ≤ i → i ≤ maxIndex total s.visibleCount → (goto total s i).index = i) ∧
    (onKey total s true "Home").index = 0 ∧
    (onKey total s true "End").index = maxIndex total s.visibleCount ∧
    (goto total s (maxIndex total s.visibleCount + 1)).index = 0 ∧
    (goto total s (-1)).index = maxIndex total s.visibleCount ∧
    maxIndex 6 3 = 3 ∧
    (goto 6 { s with visibleCount := 3 } (-1)).index = 3 ∧
    (goto 6 { s with visibleCount := 3 } 4).index = 0 := by
  have hm := maxIndex_nonneg total s.visibleCount
  have hHome : (onKey total s true "Home").index = 0 := by
    have h : (onKey total s true "Home").index = (goto total s 0).index := by
      simp [onKey]
    rw [h]
    exact bounded_of_mem _ 0 (le_refl 0) hm
  have hEnd : (onKey total s true "End").index = maxIndex total s.visibleCount := by
    have h : (onKey total s true "End").index
        = (goto total s (maxIndex total s.visibleCount)).index := by
      simp [onKey]
    rw [h]
    exact bounded_of_mem _ _ hm (le_refl _)
  have hA : bounded (maxIndex 6 3) (-1) = 3 := by decide
  have hB : bounded (maxIndex 6 3) 4 = 0 := by decide
  exact ⟨bounded_eq_emod _ i hm, fun h0 h1 => bounded_of_mem _ i h0 h1, hHome, hEnd,
    bounded_succ _ hm, bounded_neg_one _ hm, by decide, hA, hB⟩

/-- Witness for C2: with six projects and three visible cards, `goto(2)` keeps
`2`. -/
theorem goto_index_eq_emod_witness :
    (goto 6 { index := 0, visibleCount := 3 } 2).index = 2 :=
  (goto_index_eq_emod 6 { index := 0, visibleCount := 3 } 2).2.1 (by decide) (by decide)

/-- C3. For every index in `[0, maxIndex]`: `next` moves to `index + 1`, except
at `maxIndex` where it wraps to `0`; `prev` moves to `index - 1`, except at `0`
where it wraps to `maxIndex`; `prev` undoes `next` and `next` undoes `prev`. -/
theorem next_prev_wrap (total : Int) (s : State)
    (h0 : 0 ≤ s.index) (h1 : s.index ≤ maxIndex total s.visibleCount) :
    (next total s).index
      = (if s.index = maxIndex total s.visibleCount then 0 else s.index + 1) ∧
    (prev total s).index
      = (if s.index = 0 then maxIndex total s.visibleCount else s.index - 1) ∧
    (next total s).visibleCount = s.visibleCount ∧
    (prev total s).visibleCount = s.visibleCount ∧
    prev total (next total s) = s ∧
    next total (prev total s) = s := by
  have hm := maxIndex_nonneg total s.visibleCount
  have hn : (next total s).index
      = (if s.index = maxIndex total s.visibleCount then 0 else s.index + 1) := by
    show bounded (maxIndex total s.visibleCount) (s.index + 1) = _
    split_ifs with h
    · rw [h]; exact bounded_succ _ hm
    · exact bounded_of_mem _ _ (by omega) (by omega)
  have hp : (prev total s).index
      = (if s.index = 0 then maxIndex total s.visibleCount else s.index - 1) := by
    show bounded (maxIndex total s.visibleCount) (s.index - 1) = _
    split_ifs with h
    · rw [h]; exact bounded_neg_one _ hm
    · exact bounded_of_mem _ _ (by omega) (by omega)
  refine ⟨hn, hp, rfl, rfl, ?_, ?_⟩
  · have hv : (next total s).visibleCount = s.visibleCount := rfl
    have : (prev total (next total s)).index = s.index := by
      show bounded (maxIndex total (next total s).visibleCount) ((next total s).index - 1) = _
      rw [hv, hn]
      split_ifs with h
      · rw [h]; exact bounded_neg_one _ hm
      · rw [Int.add_sub_cancel]; exact bounded_of_mem _ _ h0 h1
    cases s
    simp only [prev, goto, next, State.mk.injEq, and_true] at this ⊢
    exact this
  · have hv : (prev total s).visibleCount = s.visibleCount := rfl
    have : (next total (prev total s)).index = s.index := by
      show bounded (maxIndex total (prev total s).visibleCount) ((prev total s).index + 1) = _
      rw [hv, hp]
      split_ifs with h
      · rw [h]; exact bounded_succ _ hm
      · rw [Int.sub_add_cancel]; exact bounded_of_mem _ _ h0 h1
    cases s
    simp only [prev, goto, next, State.mk.injEq, and_true] at this ⊢
    exact this

/-- Witness for C3: index `3` of a carousel with `maxIndex = 3`. -/
theorem next_prev_wrap_witness :
    (next 6 { index := 3, visibleCount := 3 }).index = 0 ∧
    (prev 6 { index := 3, visibleCount := 3 }).index = 2 :=
  have h := next_prev_wrap 6 { index := 3, visibleCount := 3 } (by decide) (by decide)
  ⟨h.1, h.2.1⟩

end Projects

/-! ## White space and `trim` -/

theorem trim_eq_nil_iff (s : JSString) : trim s = [] ↔ ∀ c ∈ s, isWhiteSpace c = true := by
  unfold trim
  rw [List.rdropWhile_eq_nil_iff]
  constructor
  · intro h
    have hnil : s.dropWhile isWhiteSpace = [] := by
      by_contra hne
      have h1 := List.head_dropWhile_not isWhiteSpace s hne
      have h2 := h _ (List.head_mem hne)
      simp [h2] at h1
    exact List.dropWhile_eq_nil_iff.mp hnil
  · intro h x hx
    exact h x ((List.dropWhile_sublist isWhiteSpace).subset hx)

theorem trim_isEmpty_iff (s : JSString) :
    (trim s).isEmpty = true ↔ ∀ c ∈ s, isWhiteSpace c = true := by
  rw [List.isEmpty_iff, trim_eq_nil_iff]

theorem dropWhile_append_of_all (p : Nat → Bool) (pre r : JSString)
    (h : ∀ c ∈ pre, p c = true) : (pre ++ r).dropWhile p = r.dropWhile p := by
  induction pre with
  | nil => rfl
  | cons x xs ih =>
    have hx : p x = true := h x (List.mem_cons_self _ _)
    rw [List.cons_append, List.dropWhile_cons_of_pos hx]
    exact ih (fun c hc => h c (List.mem_cons_of_mem _ hc))

/-- Trimming removes a white-space padding around a core without white space. -/
theorem trim_pad (pre core post : JSString)
    (hpre : ∀ c ∈ pre, isWhiteSpace c = true) (hpost : ∀ c ∈ post, isWhiteSpace c = true)
    (hcore : ∀ c ∈ core, isWhiteSpace c = false) (hne : core ≠ []) :
    trim (pre ++ core ++ post) = core := by
  unfold trim
  rw [List.append_assoc, dropWhile_append_of_all _ _ _ hpre]
  have h1 : (core ++ post).dropWhile isWhiteSpace = core ++ post := by
    cases core with
    | nil => exact absurd rfl hne
    | cons x xs =>
      have hx : ¬ isWhiteSpace x = true := by
        rw [hcore x (List.mem_cons_self _ _)]; decide
      rw [List.cons_append, List.dropWhile_cons_of_neg hx]
  rw [h1, List.rdropWhile, List.reverse_append,
    dropWhile_append_of_all _ _ _ (fun c hc => hpost c (List.mem_reverse.mp hc))]
  have h2 : core.reverse.dropWhile isWhiteSpace = core.reverse := by
    cases hrev : core.reverse with
    | nil => rfl
    | cons x xs =>
      have hxm : x ∈ core := by
        rw [← List.mem_reverse, hrev]; exact List.mem_cons_self _ _
      have hx : ¬ isWhiteSpace x = true := by
        rw [hcore x hxm]; decide
      rw [List.dropWhile_cons_of_neg hx]
  rw [h2, List.reverse_reverse]

/-- Trimming removes a white-space padding around a core that starts and ends
with a character that is not white space. -/
theorem trim_ends (pre mid post : JSString) (a b : Nat)
    (hpre : ∀ c ∈ pre, isWhiteSpace c = true) (hpost : ∀ c ∈ post, isWhiteSpace c = true)
    (ha : isWhiteSpace a = false) (hb : isWhiteSpace b = false) :
    trim (pre ++ a :: (mid ++ b :: post)) = a :: (mid ++ [b]) := by
  have ha' : ¬ isWhiteSpace a = true := by rw [ha]; decide
  have hb' : ¬ isWhiteSpace b = true := by rw [hb]; decide
  unfold trim
  rw [dropWhile_append_of_all _ _ _ hpre, List.dropWhile_cons_of_neg ha']
  have hrev : (a :: (mid ++ b :: post)).reverse = post.reverse ++ b :: (a :: mid).reverse := by
    simp
  rw [List.rdropWhile, hrev,
    dropWhile_append_of_all _ _ _ (fun c hc => hpost c (List.mem_reverse.mp hc)),
    List.dropWhile_cons_of_neg hb']
  simp

namespace ContactForm

open Regex

/-! ## The contact form -/

/-- The object built by `validate`, field by field. -/
theorem validateErrors_eq (form : Form) :
    validateErrors form =
      (if (trim form.user_name).isEmpty then [("user_name", "Le nom est requis.")] else []) ++
      (if (trim form.user_email).isEmpty then [("user_email", "L'email est requis.")]
        else if !test emailRe form.user_email then
          [("user_email", "Format d'email invalide.")]
        else []) ++
      (if (trim form.message).isEmpty || decide ((trim form.message).length < 10) then
        [("message", "Message trop court (min. 10 caractères).")] else []) := by
  unfold validateErrors
  split_ifs <;> rfl

/-- C4. Whenever the honeypot field `website` is non-empty, `handleSubmit` ends
in the submitted status (`submitting = false`, `submitted = true`, `error = ""`)
without calling the relay, for every value of the other fields and either
outcome the relay could have had; validation is not run: the error map (and
the field values) are left unchanged. -/
theorem honeypot_short_circuit (relayOk : Bool) (s : State) (h : s.form.website ≠ []) :
    (handleSubmit relayOk s).status = { submitting := false, submitted := true, error := "" } ∧
    (handleSubmit relayOk s).relayCalls = s.relayCalls ∧
    (handleSubmit relayOk s).errors = s.errors ∧
    (handleSubmit relayOk s).form = s.form := by
  have hw : s.form.website.isEmpty = false := by
    cases hweb : s.form.website with
    | nil => exact absurd hweb h
    | cons c cs => rfl
  simp [handleSubmit, hw]

/-- Witness for C4: a honeypot holding `x`, all other fields empty (invalid). -/
theorem honeypot_short_circuit_witness :
    (handleSubmit true { init with form := { init.form with website := lit ['x'] } }).status
        = { submitting := false, submitted := true, error := "" } ∧
    (handleSubmit true { init with form := { init.form with website := lit ['x'] } }).relayCalls
        = 0 :=
  have h := honeypot_short_circuit true
    { init with form := { init.form with website := lit ['x'] } } (by decide)
  ⟨h.1, h.2.1⟩

theorem handleSubmit_invalid (relayOk : Bool) (s : State) (hw : s.form.website = [])
    (he : validateErrors s.form ≠ []) :
    handleSubmit relayOk s = { s with errors := validateErrors s.form } := by
  have hk : ¬ (validateErrors s.form).keys.length = 0 := by
    simpa [ErrorMap.keys] using he
  simp [handleSubmit, validate, hw, hk]

theorem handleSubmit_valid (relayOk : Bool) (s : State) (hw : s.form.website = [])
    (he : validateErrors s.form = []) :
    handleSubmit relayOk s =
      if relayOk then
        { form := { user_name := [], user_email := [], message := [], website := [] }
          errors := []
          status := { submitting := false, submitted := true, error := "" }
          relayCalls := s.relayCalls + 1 }
      else
        { form := s.form
          errors := []
          status := { submitting := false, submitted := false,
                      error := "L'envoi a échoué. Réessayez ou écrivez-moi par email." }
          relayCalls := s.relayCalls + 1 } := by
  simp [handleSubmit, validate, hw, he, ErrorMap.keys]

theorem handleSubmit_errors (relayOk : Bool) (s : State) (hw : s.form.website = []) :
    (handleSubmit relayOk s).errors = validateErrors s.form := by
  by_cases he : validateErrors s.form = []
  · rw [handleSubmit_valid relayOk s hw he, he]
    cases relayOk <;> rfl
  · rw [handleSubmit_invalid relayOk s hw he]

/-- The errors after a submit attempt, in terms of the tests `validate` makes. -/
theorem submit_errors_by_trim (relayOk : Bool) (s : State)
    (hw : s.form.website = []) :
    (trim s.form.user_name = [] →
      (handleSubmit relayOk s).errors.keys.count "user_name" = 1 ∧
      ("user_name", "Le nom est requis.") ∈ (handleSubmit relayOk s).errors) ∧
    (trim s.form.user_email = [] →
      (handleSubmit relayOk s).errors.keys.count "user_email" = 1 ∧
      ("user_email", "L'email est requis.") ∈ (handleSubmit relayOk s).errors) ∧
    (trim s.form.message = [] →
      (handleSubmit relayOk s).errors.keys.count "message" = 1 ∧
      ("message", "Message trop court (min. 10 caractères).")
        ∈ (handleSubmit relayOk s).errors) ∧
    (trim s.form.user_name ≠ [] → "user_name" ∉ (handleSubmit relayOk s).errors.keys) ∧
    (trim s.form.user_email ≠ [] → test emailRe s.form.user_email = true →
      "user_email" ∉ (handleSubmit relayOk s).errors.keys) ∧
    (10 ≤ (trim s.form.message).length →
      "message" ∉ (handleSubmit relayOk s).errors.keys) ∧
    ((handleSubmit relayOk s).errors ≠ [] →
      (handleSubmit relayOk s).relayCalls = s.relayCalls ∧
      (handleSubmit relayOk s).status = s.status ∧
      (handleSubmit relayOk s).form = s.form) ∧
    (trim s.form.user_name = [] → trim s.form.user_email = [] → trim s.form.message = [] →
      (handleSubmit relayOk s).errors.keys = ["user_name", "user_email", "message"]) := by
  have hE := handleSubmit_errors relayOk s hw
  refine ⟨?_, ?_, ?_, ?_, ?_, ?_, ?_, ?_⟩
  · intro h
    rw [hE, validateErrors_eq]
    split_ifs <;> simp_all [ErrorMap.keys]
  · intro h
    rw [hE, validateErrors_eq]
    split_ifs <;> simp_all [ErrorMap.keys]
  · intro h
    rw [hE, validateErrors_eq]
    split_ifs <;> simp_all [ErrorMap.keys]
  · intro h
    rw [hE, validateErrors_eq]
    split_ifs <;> simp_all [ErrorMap.keys]
  · intro h ht
    rw [hE, validateErrors_eq]
    split_ifs <;> simp_all [ErrorMap.keys]
  · intro h
    rw [hE, validateErrors_eq]
    have hne : (trim s.form.message).isEmpty = false := by
      cases hm : trim s.form.message with
      | nil => rw [hm] at h; simp at h
      | cons c cs => rfl
    have hlt : ¬ (trim s.form.message).length < 10 := by omega
    have hc : ((trim s.form.message).isEmpty
        || decide ((trim s.form.message).length < 10)) = false := by
      simp [hne, hlt]
    rw [hc]
    simp only [Bool.false_eq_true, if_false, List.append_nil]
    split_ifs <;> simp [ErrorMap.keys]
  · intro h
    rw [hE] at h
    rw [handleSubmit_invalid relayOk s hw h]
    exact ⟨rfl, rfl, rfl⟩
  · intro h1 h2 h3
    rw [hE, validateErrors_eq]
    simp [h1, h2, h3, ErrorMap.keys]

end ContactForm

/-! ## Correctness of the matcher -/

namespace Regex

theorem mem_repRests (p : Nat → Bool) (s : JSString) :
    ∀ (n : Nat) (r : JSString),
      r ∈ repRests p n s ↔ ∃ w, s = w ++ r ∧ n ≤ w.length ∧ ∀ c ∈ w, p c = true := by
  induction s with
  | nil =>
    intro n r
    constructor
    · intro h
      by_cases hn : n = 0
      · simp [repRests, hn] at h
        exact ⟨[], by simp [h], by simp [hn], by simp⟩
      · simp [repRests, hn] at h
    · rintro ⟨w, hw, hn, -⟩
      have hw' := List.append_eq_nil.mp hw.symm
      have h0 : n = 0 := by
        have : w.length = 0 := by rw [hw'.1]; rfl
        omega
      simp [repRests, h0, hw'.2]
  | cons c cs ih =>
    intro n r
    constructor
    · intro h
      simp only [repRests, List.mem_append] at h
      rcases h with h | h
      · by_cases hp : p c = true
        · rw [if_pos hp] at h
          obtain ⟨w, hw, hn, hall⟩ := (ih (n - 1) r).mp h
          refine ⟨c :: w, by simp [hw], by simp; omega, ?_⟩
          intro x hx
          rcases List.mem_cons.mp hx with rfl | hx
          · exact hp
          · exact hall x hx
        · rw [if_neg hp] at h
          simp at h
      · by_cases hn : n = 0
        · rw [if_pos hn] at h
          have hr : r = c :: cs := by simpa using h
          exact ⟨[], by simp [hr], by simp [hn], by simp⟩
        · rw [if_neg hn] at h
          simp at h
    · rintro ⟨w, hw, hn, hall⟩
      simp only [repRests, List.mem_append]
      cases w with
      | nil =>
        right
        have h0 : n = 0 := by simpa using hn
        have hr : r = c :: cs := by simpa using hw.symm
        simp [h0, hr]
      | cons x w =>
        left
        simp only [List.cons_append, List.cons.injEq] at hw
        obtain ⟨rfl, hcs⟩ := hw
        have hp : p c = true := hall c (List.mem_cons_self _ _)
        rw [if_pos hp]
        refine (ih (n - 1) r).mpr ⟨w, hcs, ?_, fun y hy => hall y (List.mem_cons_of_mem _ hy)⟩
        simp only [List.length_cons] at hn
        omega

theorem mem_rests (re : Re) :
    ∀ (s r : JSString), r ∈ rests re s ↔ ∃ w, s = w ++ r ∧ Matches re w := by
  induction re with
  | cls p =>
    intro s r
    cases s with
    | nil =>
      simp only [rests, List.not_mem_nil, false_iff]
      rintro ⟨w, hw, c, rfl, -⟩
      simp at hw
    | cons x xs =>
      constructor
      · intro h
        by_cases hp : p x = true
        · simp only [rests, if_pos hp, List.mem_singleton] at h
          exact ⟨[x], by simp [h], x, rfl, hp⟩
        · simp [rests, hp] at h
      · rintro ⟨w, hw, c, rfl, hp⟩
        simp only [List.singleton_append, List.cons.injEq] at hw
        obtain ⟨rfl, rfl⟩ := hw
        simp [rests, hp]
  | rep p n =>
    intro s r
    simp only [rests, Matches]
    exact mem_repRests p s n r
  | seq a b iha ihb =>
    intro s r
    simp only [rests, List.mem_flatMap, Matches]
    constructor
    · rintro ⟨m, hm, hr⟩
      obtain ⟨u, hu, hau⟩ := (iha s m).mp hm
      obtain ⟨v, hv, hbv⟩ := (ihb m r).mp hr
      exact ⟨u ++ v, by rw [hu, hv, List.append_assoc], u, v, rfl, hau, hbv⟩
    · rintro ⟨w, hw, u, v, rfl, hau, hbv⟩
      refine ⟨v ++ r, (iha s _).mpr ⟨u, by rw [hw, List.append_assoc], hau⟩, ?_⟩
      exact (ihb _ r).mpr ⟨v, rfl, hbv⟩

/-- The anchored test accepts exactly the words the expression denotes. -/
theorem test_iff (re : Re) (s : JSString) : test re s = true ↔ Matches re s := by
  unfold test
  rw [List.any_eq_true]
  constructor
  · rintro ⟨r, hr, he⟩
    have hr0 : r = [] := List.isEmpty_iff.mp he
    subst hr0
    obtain ⟨w, hw, hm⟩ := (mem_rests re s []).mp hr
    rw [List.append_nil] at hw
    rw [hw]; exact hm
  · intro h
    exact ⟨[], (mem_rests re s []).mpr ⟨s, by simp, h⟩, rfl⟩

end Regex

namespace ContactForm

open Regex

/-! ## The email pattern -/

theorem notSpaceAt_iff (c : Nat) :
    notSpaceAt c = true ↔ isWhiteSpace c = false ∧ c ≠ 0x40 := by
  simp [notSpaceAt]

/-- The words of `emailRe`, written out. -/
theorem emailRe_matches_iff (s : JSString) :
    Matches emailRe s ↔
      ∃ l d t, s = l ++ 0x40 :: (d ++ 0x2E :: t) ∧
        (1 ≤ l.length ∧ ∀ c ∈ l, notSpaceAt c = true) ∧
        (1 ≤ d.length ∧ ∀ c ∈ d, notSpaceAt c = true) ∧
        (2 ≤ t.length ∧ ∀ c ∈ t, notSpaceAt c = true) := by
  simp only [emailRe, Matches]
  constructor
  · rintro ⟨l, v, rfl, hl, u2, v2, rfl, ⟨c, rfl, hc⟩, d, v3, rfl, hd, u4, t, rfl,
      ⟨c', rfl, hc'⟩, ht⟩
    have h1 : c = 0x40 := by simpa using hc
    have h2 : c' = 0x2E := by simpa using hc'
    subst h1 h2
    exact ⟨l, d, t, by simp, hl, hd, ht⟩
  · rintro ⟨l, d, t, rfl, hl, hd, ht⟩
    exact ⟨l, _, rfl, hl, [0x40], _, rfl, ⟨0x40, rfl, by simp⟩, d, _, rfl, hd,
      [0x2E], t, rfl, ⟨0x2E, rfl, by simp⟩, ht⟩

theorem count_at_eq_zero (w : JSString) (h : ∀ c ∈ w, notSpaceAt c = true) :
    w.count 0x40 = 0 := by
  rw [List.count_eq_zero]
  intro hmem
  exact ((notSpaceAt_iff _).mp (h _ hmem)).2 rfl

theorem emailRe_test_iff_shape (s : JSString) : test emailRe s = true ↔ EmailShape s := by
  rw [test_iff, emailRe_matches_iff]
  constructor
  · rintro ⟨l, d, t, rfl, ⟨hl1, hl⟩, ⟨hd1, hd⟩, ⟨ht1, ht⟩⟩
    refine ⟨?_, ?_, l, d ++ 0x2E :: t, rfl, ?_, d, t, rfl, hd1, ht1⟩
    · intro c hc
      simp only [List.mem_append, List.mem_cons] at hc
      rcases hc with hc | rfl | hc | rfl | hc
      · exact ((notSpaceAt_iff c).mp (hl c hc)).1
      · decide
      · exact ((notSpaceAt_iff c).mp (hd c hc)).1
      · decide
      · exact ((notSpaceAt_iff c).mp (ht c hc)).1
    · have e1 := count_at_eq_zero l hl
      have e2 := count_at_eq_zero d hd
      have e3 := count_at_eq_zero t ht
      simp [List.count_append, List.count_cons, e1, e2, e3]
    · intro hnil
      rw [hnil] at hl1
      simp at hl1
  · rintro ⟨hws, hcount, l, d, rfl, hl, a, b, rfl, ha, hb⟩
    have hc : l.count 0x40 + a.count 0x40 + b.count 0x40 = 0 := by
      simp [List.count_append, List.count_cons] at hcount
      omega
    have hmem : ∀ w : JSString, w.count 0x40 = 0 → (∀ c ∈ w, c ∈ l ++ 0x40 :: (a ++ 0x2E :: b)) →
        ∀ c ∈ w, notSpaceAt c = true := by
      intro w hw hsub c hcw
      refine (notSpaceAt_iff c).mpr ⟨hws c (hsub c hcw), ?_⟩
      rintro rfl
      exact (List.count_eq_zero.mp hw) hcw
    refine ⟨l, a, b, rfl, ⟨?_, hmem l (by omega) (by intro c hc; simp [hc])⟩,
      ⟨ha, hmem a (by omega) (by intro c hc; simp [hc])⟩,
      ⟨hb, hmem b (by omega) (by intro c hc; simp [hc])⟩⟩
    cases l with
    | nil => exact absurd rfl hl
    | cons x xs => simp

/-- A value of the email shape is not blank. -/
theorem EmailShape.trim_ne_nil {s : JSString} (h : EmailShape s) : trim s ≠ [] := by
  intro hnil
  obtain ⟨hws, -, l, d, rfl, -⟩ := h
  have h1 := (trim_eq_nil_iff _).mp hnil 0x40 (by simp)
  have h2 := hws 0x40 (by simp)
  rw [h1] at h2
  exact absurd h2 (by decide)

theorem isEmpty_eq_false_of_ne {w : JSString} (h : w ≠ []) : w.isEmpty = false := by
  cases w with
  | nil => exact absurd rfl h
  | cons c cs => rfl

theorem email_key_mem_iff (form : Form) :
    "user_email" ∈ (validateErrors form).keys ↔
      trim form.user_email = [] ∨ test emailRe form.user_email = false := by
  rw [validateErrors_eq, ← List.isEmpty_iff]
  generalize (trim form.user_name).isEmpty = b1
  generalize (trim form.user_email).isEmpty = b2
  generalize test emailRe form.user_email = b3
  generalize ((trim form.message).isEmpty || decide ((trim form.message).length < 10)) = b4
  cases b1 <;> cases b2 <;> cases b3 <;> cases b4 <;> simp [ErrorMap.keys]

theorem email_format_error (form : Form) (hne : trim form.user_email ≠ [])
    (ht : test emailRe form.user_email = false) :
    ("user_email", "Format d'email invalide.") ∈ validateErrors form ∧
    (validateErrors form).keys.count "user_email" = 1 := by
  rw [validateErrors_eq, isEmpty_eq_false_of_ne hne, ht]
  generalize (trim form.user_name).isEmpty = b1
  generalize ((trim form.message).isEmpty || decide ((trim form.message).length < 10)) = b4
  cases b1 <;> cases b4 <;> simp [ErrorMap.keys]

theorem message_cond_iff (m : JSString) :
    ((trim m).isEmpty || decide ((trim m).length < 10)) = true ↔ (trim m).length < 10 := by
  rw [Bool.or_eq_true, decide_eq_true_iff, List.isEmpty_iff]
  constructor
  · rintro (h | h)
    · rw [h]; decide
    · exact h
  · exact Or.inr

theorem message_key_mem_iff (form : Form) :
    "message" ∈ (validateErrors form).keys ↔ (trim form.message).length < 10 := by
  rw [← message_cond_iff, validateErrors_eq]
  generalize (trim form.user_name).isEmpty = b1
  generalize (trim form.user_email).isEmpty = b2
  generalize test emailRe form.user_email = b3
  generalize ((trim form.message).isEmpty || decide ((trim form.message).length < 10)) = b4
  cases b1 <;> cases b2 <;> cases b3 <;> cases b4 <;> simp [ErrorMap.keys]

theorem message_entry_mem_iff (form : Form) :
    ("message", "Message trop court (min. 10 caractères).") ∈ validateErrors form ↔
      (trim form.message).length < 10 := by
  rw [← message_cond_iff, validateErrors_eq]
  generalize (trim form.user_name).isEmpty = b1
  generalize (trim form.user_email).isEmpty = b2
  generalize test emailRe form.user_email = b3
  generalize ((trim form.message).isEmpty || decide ((trim form.message).length < 10)) = b4
  cases b1 <;> cases b2 <;> cases b3 <;> cases b4 <;> simp

/-- C6. `validate` accepts an email value exactly when it has the shape
`local@domain.tld` (`EmailShape`: no white space, exactly one `@`, a non-empty
part before it, and after it a `.` with at least one character before and at
least two after): the pattern of line 31 matches exactly these values, the key
`user_email` is absent exactly for them, and every other non-blank value gets
the single error "Format d'email invalide.". `a@b` is rejected, `a@b.co`
passes. -/
theorem email_accepted_iff_shape (form : Form) :
    (test emailRe form.user_email = true ↔ EmailShape form.user_email) ∧
    ("user_email" ∉ (validateErrors form).keys ↔ EmailShape form.user_email) ∧
    (trim form.user_email ≠ [] → ¬ EmailShape form.user_email →
      ("user_email", "Format d'email invalide.") ∈ validateErrors form ∧
      (validateErrors form).keys.count "user_email" = 1) ∧
    "user_email" ∈ (validateErrors { form with user_email := lit ['a', '@', 'b'] }).keys ∧
    "user_email" ∉
      (validateErrors { form with user_email := lit ['a', '@', 'b', '.', 'c', 'o'] }).keys := by
  refine ⟨emailRe_test_iff_shape _, ?_, ?_, ?_, ?_⟩
  · rw [email_key_mem_iff, ← emailRe_test_iff_shape]
    constructor
    · intro h
      by_contra ht
      exact h (Or.inr (by simpa using ht))
    · intro ht h
      rcases h with h | h
      · exact ((emailRe_test_iff_shape _).mp ht).trim_ne_nil h
      · rw [ht] at h; exact absurd h (by decide)
  · intro hne hshape
    have ht : test emailRe form.user_email = false := by
      by_contra ht
      exact hshape ((emailRe_test_iff_shape _).mp (by simpa using ht))
    exact email_format_error form hne ht
  · rw [email_key_mem_iff]
    have h : test emailRe (lit ['a', '@', 'b']) = false := by decide
    exact Or.inr h
  · rw [email_key_mem_iff]
    have h1 : trim (lit ['a', '@', 'b', '.', 'c', 'o']) ≠ [] := by decide
    have h2 : test emailRe (lit ['a', '@', 'b', '.', 'c', 'o']) ≠ false := by decide
    rintro (h | h)
    · exact h1 h
    · exact h2 h

/-- Witness for C6: the value `a@b` is not blank and lacks the shape, so it gets
the format error. -/
theorem email_accepted_iff_shape_witness :
    ("user_email", "Format d'email invalide.")
      ∈ validateErrors { init.form with user_email := lit ['a', '@', 'b'] } :=
  ((email_accepted_iff_shape { init.form with user_email := lit ['a', '@', 'b'] }).2.2.1
    (by decide)
    (fun hs => absurd
      ((email_accepted_iff_shape { init.form with user_email := lit ['a', '@', 'b'] }).1.mpr hs)
      (by decide))).1

/-- C7. `validate` reports a message error if and only if the trimmed message
has fewer than 10 characters (UTF-16 code units, as `.length` counts them): nine
characters without white space, padded with any amount of white space on both
sides, are rejected, and a trimmed length of 10 or more is accepted. -/
theorem message_error_iff_short (form : Form) :
    ("message" ∈ (validateErrors form).keys ↔ (trim form.message).length < 10) ∧
    (("message", "Message trop court (min. 10 caractères).") ∈ validateErrors form ↔
      (trim form.message).length < 10) ∧
    (∀ pre core post : JSString,
      (∀ c ∈ pre, isWhiteSpace c = true) → (∀ c ∈ post, isWhiteSpace c = true) →
      (∀ c ∈ core, isWhiteSpace c = false) → core.length = 9 →
      "message" ∈ (validateErrors { form with message := pre ++ core ++ post }).keys) ∧
    (10 ≤ (trim form.message).length → "message" ∉ (validateErrors form).keys) := by
  refine ⟨message_key_mem_iff form, ?_, ?_, ?_⟩
  · exact message_entry_mem_iff form
  · intro pre core post hpre hpost hcore hlen
    rw [message_key_mem_iff]
    have hne : core ≠ [] := by
      intro h; rw [h] at hlen; simp at hlen
    show (trim (pre ++ core ++ post)).length < 10
    rw [trim_pad pre core post hpre hpost hcore hne, hlen]
    decide
  · intro h hmem
    have := (message_key_mem_iff form).mp hmem
    omega

/-- Witness for C7: `abcdefghi` between two spaces and a line feed is rejected. -/
theorem message_error_iff_short_witness :
    "message" ∈ (validateErrors { init.form with
      message := (lit [' ', ' '] ++ lit ['a', 'b', 'c', 'd', 'e', 'f', 'g', 'h', 'i']
        ++ lit ['\n']) }).keys :=
  (message_error_iff_short init.form).2.2.1 (lit [' ', ' '])
    (lit ['a', 'b', 'c', 'd', 'e', 'f', 'g', 'h', 'i']) (lit ['\n'])
    (by decide) (by decide) (by decide) (by decide)

theorem validateErrors_nil_of_validate (s : State) (hv : (validate s).2 = true) :
    validateErrors s.form = [] := by
  have h : (validateErrors s.form).keys.length = 0 := by
    simpa [validate] using hv
  simpa [ErrorMap.keys] using h

/-- C8. With an empty honeypot and fields that pass `validate`, `handleSubmit`
calls the relay exactly once. If the call succeeds the final status is submitted
(`submitting = false`, `submitted = true`, `error = ""`) and the four fields are
reset to the empty string; if it fails the final status is the error status
(`submitting = false`, `submitted = false`, a non-empty message) and the fields
are unchanged. In both outcomes `submitting` is false at the end. -/
theorem submit_outcomes (s : State) (hw : s.form.website = [])
    (hv : (validate s).2 = true) :
    ((handleSubmit true s).relayCalls = s.relayCalls + 1 ∧
      (handleSubmit true s).status = { submitting := false, submitted := true, error := "" } ∧
      (handleSubmit true s).form
        = { user_name := [], user_email := [], message := [], website := [] }) ∧
    ((handleSubmit false s).relayCalls = s.relayCalls + 1 ∧
      (handleSubmit false s).status
        = { submitting := false, submitted := false,
            error := "L'envoi a échoué. Réessayez ou écrivez-moi par email." } ∧
      (handleSubmit false s).status.error ≠ "" ∧
      (handleSubmit false s).form = s.form) ∧
    (∀ relayOk, (handleSubmit relayOk s).status.submitting = false) := by
  have he := validateErrors_nil_of_validate s hv
  refine ⟨?_, ?_, ?_⟩
  · rw [handleSubmit_valid true s hw he]
    exact ⟨rfl, rfl, rfl⟩
  · rw [handleSubmit_valid false s hw he]
    have hmsg : "L'envoi a échoué. Réessayez ou écrivez-moi par email." ≠ "" := by decide
    exact ⟨rfl, rfl, hmsg, rfl⟩
  · intro relayOk
    rw [handleSubmit_valid relayOk s hw he]
    cases relayOk <;> rfl

/-- Witness for C8: name `Al`, email `a@b.co`, a ten-character message; the relay
succeeds. -/
theorem submit_outcomes_witness :
    (handleSubmit true { init with form :=
      { user_name := lit ['A', 'l'], user_email := lit ['a', '@', 'b', '.', 'c', 'o'],
        message := lit ['0', '1', '2', '3', '4', '5', '6', '7', '8', '9'],
        website := [] } }).relayCalls = 1 :=
  (submit_outcomes { init with form :=
      { user_name := lit ['A', 'l'], user_email := lit ['a', '@', 'b', '.', 'c', 'o'],
        message := lit ['0', '1', '2', '3', '4', '5', '6', '7', '8', '9'],
        website := [] } } rfl (by decide)).1.1

theorem trim_ne_nil_of_exists {w : JSString} (h : ∃ c ∈ w, isWhiteSpace c = false) :
    trim w ≠ [] := by
  intro hnil
  obtain ⟨c, hc, hws⟩ := h
  have := (trim_eq_nil_iff w).mp hnil c hc
  rw [hws] at this
  exact absurd this (by decide)

/-- C5. With an empty honeypot, a submit attempt gives each of `user_name`,
`user_email`, `message` that is empty or consists of white space only exactly
one error, under its own key; a valid field gets none (a name with a character
that is not white space, an email of the shape `local@domain.tld`, a message
whose text between the surrounding white space has at least 10 characters);
whenever the error map is non-empty the relay is not called and the status (and
the field values) are unchanged; with all three fields blank the error map has
exactly the three keys. -/
theorem validation_errors_per_field (relayOk : Bool) (s : State)
    (hw : s.form.website = []) :
    ((∀ c ∈ s.form.user_name, isWhiteSpace c = true) →
      (handleSubmit relayOk s).errors.keys.count "user_name" = 1 ∧
      ("user_name", "Le nom est requis.") ∈ (handleSubmit relayOk s).errors) ∧
    ((∀ c ∈ s.form.user_email, isWhiteSpace c = true) →
      (handleSubmit relayOk s).errors.keys.count "user_email" = 1 ∧
      ("user_email", "L'email est requis.") ∈ (handleSubmit relayOk s).errors) ∧
    ((∀ c ∈ s.form.message, isWhiteSpace c = true) →
      (handleSubmit relayOk s).errors.keys.count "message" = 1 ∧
      ("message", "Message trop court (min. 10 caractères).")
        ∈ (handleSubmit relayOk s).errors) ∧
    ((∃ c ∈ s.form.user_name, isWhiteSpace c = false) →
      "user_name" ∉ (handleSubmit relayOk s).errors.keys) ∧
    (EmailShape s.form.user_email →
      "user_email" ∉ (handleSubmit relayOk s).errors.keys) ∧
    (∀ (pre mid post : JSString) (a b : Nat),
      (∀ c ∈ pre, isWhiteSpace c = true) → (∀ c ∈ post, isWhiteSpace c = true) →
      isWhiteSpace a = false → isWhiteSpace b = false → 8 ≤ mid.length →
      s.form.message = pre ++ a :: (mid ++ b :: post) →
      "message" ∉ (handleSubmit relayOk s).errors.keys) ∧
    ((handleSubmit relayOk s).errors ≠ [] →
      (handleSubmit relayOk s).relayCalls = s.relayCalls ∧
      (handleSubmit relayOk s).status = s.status ∧
      (handleSubmit relayOk s).form = s.form) ∧
    ((∀ c ∈ s.form.user_name, isWhiteSpace c = true) →
      (∀ c ∈ s.form.user_email, isWhiteSpace c = true) →
      (∀ c ∈ s.form.message, isWhiteSpace c = true) →
      (handleSubmit relayOk s).errors.keys = ["user_name", "user_email", "message"]) := by
  have h := submit_errors_by_trim relayOk s hw
  refine ⟨?_, ?_, ?_, ?_, ?_, ?_, h.2.2.2.2.2.2.1, ?_⟩
  · intro hb
    exact h.1 ((trim_eq_nil_iff _).mpr hb)
  · intro hb
    exact h.2.1 ((trim_eq_nil_iff _).mpr hb)
  · intro hb
    exact h.2.2.1 ((trim_eq_nil_iff _).mpr hb)
  · intro hex
    exact h.2.2.2.1 (trim_ne_nil_of_exists hex)
  · intro hshape
    exact h.2.2.2.2.1 hshape.trim_ne_nil ((emailRe_test_iff_shape _).mpr hshape)
  · intro pre mid post a b hpre hpost ha hb hlen hmsg
    apply h.2.2.2.2.2.1
    rw [hmsg, trim_ends pre mid post a b hpre hpost ha hb]
    simp only [List.length_cons, List.length_append, List.length_nil]
    omega
  · intro h1 h2 h3
    exact h.2.2.2.2.2.2.2 ((trim_eq_nil_iff _).mpr h1) ((trim_eq_nil_iff _).mpr h2)
      ((trim_eq_nil_iff _).mpr h3)

/-- Witness for C5: a name of two spaces with a valid email and a valid message
gets exactly one `user_name` error, and the relay is not called. -/
theorem validation_errors_per_field_witness :
    (handleSubmit true { init with form :=
      { user_name := lit [' ', ' '], user_email := lit ['a', '@', 'b', '.', 'c', 'o'],
        message := lit ['0', '1', '2', '3', '4', '5', '6', '7', '8', '9'],
        website := [] } }).errors.keys.count "user_name" = 1 ∧
    (handleSubmit true { init with form :=
      { user_name := lit [' ', ' '], user_email := lit ['a', '@', 'b', '.', 'c', 'o'],
        message := lit ['0', '1', '2', '3', '4', '5', '6', '7', '8', '9'],
        website := [] } }).relayCalls = 0 :=
  have h := validation_errors_per_field true { init with form :=
      { user_name := lit [' ', ' '], user_email := lit ['a', '@', 'b', '.', 'c', 'o'],
        message := lit ['0', '1', '2', '3', '4', '5', '6', '7', '8', '9'],
        website := [] } } rfl
  ⟨(h.1 (by decide)).1, (h.2.2.2.2.2.2.1 (by decide)).1⟩

end ContactForm

namespace StackTabs

/-! ## Auto-advance -/

theorem autoplayValue_reduced (data : List TechRecord) (s : State) :
    autoplayValue data true s = false := by
  simp [autoplayValue]

theorem step_reduced_isPlaying (data : List TechRecord) (s : State) (e : Event)
    (h : s.isPlaying = false) : (step data true s e).isPlaying = false := by
  unfold step
  simp only []
  split_ifs
  · exact autoplayValue_reduced data _
  · cases e with
    | pressPlay =>
      show (handle data true s Event.pressPlay).isPlaying = false
      unfold handle
      split_ifs <;> exact h
    | selectTab cat => exact h
    | enter => rfl
    | cardResize w => exact h

theorem run_reduced_isPlaying (data : List TechRecord) (evs : List Event) :
    ∀ s : State, s.isPlaying = false → (run data true s evs).isPlaying = false := by
  induction evs with
  | nil => intro s h; exact h
  | cons e es ih =>
    intro s h
    exact ih (step data true s e) (step_reduced_isPlaying data s e h)

/-- C9. When reduced motion is signaled, auto-advance is never active: after any
sequence of play presses, tab selections, pointer or focus entries and card-width
changes from the initial state, `isPlaying` is false; the same holds from any
state with `isPlaying = false`, whatever the value of `wantsPlay`, and the
autoplay effect itself always stores `false`. -/
theorem reduced_motion_never_plays (data : List TechRecord) (evs : List Event) :
    (run data true (init data true) evs).isPlaying = false ∧
    (∀ (tab : String) (cw : Int) (w : Bool),
      (run data true { activeTab := tab, cardWidth := cw, wantsPlay := w, isPlaying := false }
        evs).isPlaying = false) ∧
    (∀ s : State, autoplayValue data true s = false) :=
  ⟨run_reduced_isPlaying data evs _
    (autoplayValue_reduced data
      { activeTab := (categories data).headD "", cardWidth := 260,
        wantsPlay := false, isPlaying := false }),
   fun _ _ _ => run_reduced_isPlaying data evs _ rfl,
   autoplayValue_reduced data⟩

/-- C10 (the code departs from the claim). With five cards in category `A` and six
in `B`, no reduced motion: pressing play starts auto-advance, the pointer
entering the strip pauses it, and selecting tab `B` (which changes the number
of visible cards) starts it again although the play control was not pressed. -/
theorem pause_undone_by_count_change :
    (run fiveAndSix false (init fiveAndSix false) [.pressPlay]).isPlaying = true ∧
    (run fiveAndSix false (init fiveAndSix false) [.pressPlay, .enter]).isPlaying = false ∧
    (run fiveAndSix false (init fiveAndSix false) [.pressPlay, .enter]).wantsPlay = true ∧
    (run fiveAndSix false (init fiveAndSix false)
      [.pressPlay, .enter, .selectTab "B"]).isPlaying = true := by
  decide

end StackTabs

namespace Projects

/-! ## Reachable states of the carousel and the live region -/

theorem goto_index_bounds (total : Int) (s : State) (i : Int) :
    0 ≤ (goto total s i).index ∧
    (goto total s i).index ≤ maxIndex total (goto total s i).visibleCount :=
  bounded_range (maxIndex total s.visibleCount) i (maxIndex_nonneg total s.visibleCount)

theorem maxIndex_le_of_one_le (total visibleCount : Int) (h : 1 ≤ visibleCount) :
    maxIndex total visibleCount ≤ max 0 (total - 1) := by
  unfold maxIndex
  exact max_le_max (le_refl 0) (by omega)

theorem step_bounds (total : Int) (s : State) (e : Event) (h : Bounds total s) :
    Bounds total (step total s e) := by
  obtain ⟨h0, h1, h2⟩ := h
  have key : ∀ i, Bounds total (goto total s i) := by
    intro i
    have hb := goto_index_bounds total s i
    exact ⟨hb.1, le_trans hb.2 (maxIndex_le_of_one_le total _ h2), h2⟩
  cases e with
  | next => exact key _
  | prev => exact key _
  | goto i => exact key i
  | resize count => exact ⟨h0, h1, le_max_left 1 count⟩

theorem run_bounds (total : Int) (evs : List Event) :
    ∀ s : State, Bounds total s → Bounds total (run total s evs) := by
  induction evs with
  | nil => intro s h; exact h
  | cons e es ih => intro s h; exact ih _ (step_bounds total s e h)

theorem init_bounds (total : Int) : Bounds total init :=
  ⟨le_refl 0, le_max_left 0 _, le_refl 1⟩

/-- C16. The live announcement reports `from = index + 1` and
`to = min(index + visibleCount, total)`; for `total ≥ 1`, `visibleCount ≥ 1` and
`index` in `[0, maxIndex]` the range is well formed, `1 ≤ from ≤ to ≤ total`, and
when `total ≥ visibleCount` it covers exactly `visibleCount` slides. -/
theorem live_range_well_formed (total : Int) (s : State) (ht : 1 ≤ total)
    (hv : 1 ≤ s.visibleCount) (h0 : 0 ≤ s.index)
    (h1 : s.index ≤ maxIndex total s.visibleCount) :
    liveFrom s = s.index + 1 ∧
    liveTo total s = min (s.index + s.visibleCount) total ∧
    1 ≤ liveFrom s ∧ liveFrom s ≤ liveTo total s ∧ liveTo total s ≤ total ∧
    (s.visibleCount ≤ total → liveTo total s - liveFrom s + 1 = s.visibleCount) := by
  unfold maxIndex at h1
  unfold liveFrom liveTo
  refine ⟨rfl, rfl, by omega, ?_, min_le_right _ _, ?_⟩
  · rcases le_total 0 (total - s.visibleCount) with h | h
    · rw [max_eq_right h] at h1
      rw [min_eq_left (by omega)]
      omega
    · rw [max_eq_left h] at h1
      apply le_min <;> omega
  · intro hle
    rw [max_eq_right (by omega)] at h1
    rw [min_eq_left (by omega)]
    omega

/-- Witness for C16: six projects, three visible cards, index `3`: slides 4 to 6. -/
theorem live_range_well_formed_witness :
    liveFrom { index := 3, visibleCount := 3 } = 4 ∧
    liveTo 6 { index := 3, visibleCount := 3 } - liveFrom { index := 3, visibleCount := 3 } + 1
      = 3 :=
  have h := live_range_well_formed 6 { index := 3, visibleCount := 3 }
    (by decide) (by decide) (by decide) (by decide)
  ⟨h.1, h.2.2.2.2.2 (by decide)⟩

/-- C18 (counterexample). With six projects, `goto(5)` followed by a resize to
three visible cards leaves `index = 5` above `maxIndex = 3`. -/
theorem index_above_maxIndex_after_resize :
    ¬ (0 ≤ (run 6 init [.goto 5, .resize 3]).index ∧
       (run 6 init [.goto 5, .resize 3]).index
         ≤ maxIndex 6 (run 6 init [.goto 5, .resize 3]).visibleCount) := by
  decide

/-- C18 (amended). In every state reachable from `index = 0`, `visibleCount = 1`
by `next`, `prev`, `goto` and resize events, `0 ≤ index ≤ max(0, total - 1)` and
`visibleCount ≥ 1`; and right after every `next`, `prev` or `goto` the index is in
`[0, maxIndex]` for the `maxIndex` of that moment. -/
theorem index_bounds_reachable (total : Int) (evs : List Event) :
    (0 ≤ (run total init evs).index ∧
      (run total init evs).index ≤ max 0 (total - 1) ∧
      1 ≤ (run total init evs).visibleCount) ∧
    (∀ e : Event, (e = .next ∨ e = .prev ∨ ∃ i, e = .goto i) →
      0 ≤ (step total (run total init evs) e).index ∧
      (step total (run total init evs) e).index
        ≤ maxIndex total (step total (run total init evs) e).visibleCount) := by
  refine ⟨run_bounds total evs init (init_bounds total), ?_⟩
  rintro e (rfl | rfl | ⟨i, rfl⟩)
  · exact goto_index_bounds total _ _
  · exact goto_index_bounds total _ _
  · exact goto_index_bounds total _ _

/-- Witness for C18 (amended): after `goto(5)` and a resize to three cards, `next`
brings the index back into `[0, maxIndex]`. -/
theorem index_bounds_reachable_witness :
    0 ≤ (step 6 (run 6 init [.goto 5, .resize 3]) .next).index ∧
    (step 6 (run 6 init [.goto 5, .resize 3]) .next).index
      ≤ maxIndex 6 (step 6 (run 6 init [.goto 5, .resize 3]) .next).visibleCount :=
  (index_bounds_reachable 6 [.goto 5, .resize 3]).2 .next (Or.inl rfl)

/-! ## The title hash -/

theorem toUint32_lt (x : Int) : toUint32 x < 2 ^ 32 := by
  unfold toUint32
  have h1 := Int.emod_nonneg x (show (2 : Int) ^ 32 ≠ 0 by norm_num)
  have h2 := Int.emod_lt_of_pos x (show (0 : Int) < 2 ^ 32 by norm_num)
  omega

theorem signed32_range (u : Nat) (h : u < 2 ^ 32) :
    -2 ^ 31 ≤ signed32 u ∧ signed32 u < 2 ^ 31 := by
  unfold signed32
  split_ifs with hu
  · constructor <;> omega
  · constructor <;> omega

/-- The result of `^` is a signed 32-bit integer. -/
theorem xor32_range (a b : Int) : -2 ^ 31 ≤ xor32 a b ∧ xor32 a b < 2 ^ 31 :=
  signed32_range _ (Nat.xor_lt_two_pow (toUint32_lt a) (toUint32_lt b))

theorem foldl_hash_range (str : JSString) :
    ∀ h : Int, (-2 ^ 31 ≤ h ∧ h < 2 ^ 31) →
      -2 ^ 31 ≤ str.foldl (fun h c => xor32 (h * 33) (c : Int)) h ∧
      str.foldl (fun h c => xor32 (h * 33) (c : Int)) h < 2 ^ 31 := by
  induction str with
  | nil => intro h hh; exact hh
  | cons c cs ih => intro h _; exact ih _ (xor32_range _ _)

theorem hashStr_range (str : JSString) : 0 ≤ hashStr str ∧ hashStr str ≤ 2 ^ 31 := by
  unfold hashStr
  have h := foldl_hash_range str 5381 (by norm_num)
  refine ⟨abs_nonneg _, abs_le.mpr ⟨h.1, le_of_lt h.2⟩⟩

/-- C19. `gradientFor` returns a member of the six-entry palette for every title
(and, being a function of the title alone, the same gradient for the same
title): every `^` step yields a signed 32-bit integer, `hashStr` is non-negative
(at most `2^31`, reached when the accumulator is the most negative 32-bit value,
where the index is `2`), `hashStr("") = 5381`, and `hashStr(title) % 6` is an
index in `[0, 5]`. -/
theorem gradientFor_mem_palette (title : JSString) :
    (∀ a b : Int, -2 ^ 31 ≤ xor32 a b ∧ xor32 a b < 2 ^ 31) ∧
    0 ≤ hashStr title ∧ hashStr title ≤ 2 ^ 31 ∧
    hashStr [] = 5381 ∧
    GRADIENTS.length = 6 ∧
    0 ≤ Int.tmod (hashStr title) 6 ∧ Int.tmod (hashStr title) 6 ≤ 5 ∧
    (∃ g, gradientFor title = some g ∧ g ∈ GRADIENTS) ∧
    (|(-2 ^ 31 : Int)| = 2 ^ 31 ∧ Int.tmod |(-2 ^ 31 : Int)| 6 = 2) := by
  have hr := hashStr_range title
  have h0 : 0 ≤ Int.tmod (hashStr title) 6 := Int.tmod_nonneg 6 hr.1
  have h5 : Int.tmod (hashStr title) 6 < 6 := Int.tmod_lt_of_pos _ (by norm_num)
  refine ⟨xor32_range, hr.1, hr.2, by decide, rfl, h0, by omega, ?_, by decide, by decide⟩
  have hlen : (Int.tmod (hashStr title) 6).toNat < GRADIENTS.length := by
    have : GRADIENTS.length = 6 := rfl
    omega
  refine ⟨GRADIENTS[(Int.tmod (hashStr title) 6).toNat], ?_, List.getElem_mem _⟩
  show GRADIENTS[(Int.tmod (hashStr title) (GRADIENTS.length : Int)).toNat]? = _
  have hl : ((GRADIENTS.length : Nat) : Int) = 6 := rfl
  rw [hl]
  exact List.getElem?_eq_getElem hlen

end Projects

namespace StackTabs

/-! ## Play control, visible cards and the tick -/

theorem init_isPlaying (data : List TechRecord) (reducedMotion : Bool) :
    (init data reducedMotion).isPlaying = false := by
  simp [init, autoplayValue]

theorem autoplayValue_length (data : List TechRecord) (reducedMotion : Bool) (s : State)
    (h : autoplayValue data reducedMotion s = true) :
    5 ≤ (visibleCards data s.activeTab).length := by
  simp only [autoplayValue, Bool.and_eq_true, decide_eq_true_eq] at h
  omega

theorem handle_isPlaying (data : List TechRecord) (reducedMotion : Bool) (s : State)
    (e : Event) (h : (handle data reducedMotion s e).isPlaying = true) :
    s.isPlaying = true := by
  cases e with
  | pressPlay =>
    unfold handle at h
    split_ifs at h <;> exact h
  | selectTab cat => exact h
  | enter => exact absurd h (by simp [handle])
  | cardResize w => exact h

/-- One event keeps: auto-advance runs only with at least five visible cards. -/
theorem step_playing_length (data : List TechRecord) (reducedMotion : Bool) (s : State)
    (e : Event)
    (h : s.isPlaying = true → 5 ≤ (visibleCards data s.activeTab).length) :
    (step data reducedMotion s e).isPlaying = true →
      5 ≤ (visibleCards data (step data reducedMotion s e).activeTab).length := by
  unfold step
  simp only []
  split_ifs with hc
  · intro hp
    exact autoplayValue_length data reducedMotion _ hp
  · intro hp
    have hlen : (visibleCards data (handle data reducedMotion s e).activeTab).length
        = (visibleCards data s.activeTab).length := by
      by_contra hne
      exact hc (Or.inr hne)
    rw [hlen]
    exact h (handle_isPlaying data reducedMotion s e hp)

theorem run_playing_length (data : List TechRecord) (reducedMotion : Bool)
    (evs : List Event) :
    ∀ s : State, (s.isPlaying = true → 5 ≤ (visibleCards data s.activeTab).length) →
      (run data reducedMotion s evs).isPlaying = true →
      5 ≤ (visibleCards data (run data reducedMotion s evs).activeTab).length := by
  induction evs with
  | nil => intro s h; exact h
  | cons e es ih =>
    intro s h
    exact ih _ (step_playing_length data reducedMotion s e h)

/-- C11. Auto-advance is off by default and disabled below five visible cards:
initially `isPlaying` and `wantsPlay` are false; in every state reached by play
presses, tab selections, pointer or focus entries and card-width changes,
`isPlaying` implies at least five visible cards in the active category; and the
play button is disabled exactly when reduced motion is signaled or at most four
cards are visible. -/
theorem autoplay_needs_five_cards (data : List TechRecord) (reducedMotion : Bool) :
    (init data reducedMotion).isPlaying = false ∧
    (init data reducedMotion).wantsPlay = false ∧
    (∀ evs : List Event,
      (run data reducedMotion (init data reducedMotion) evs).isPlaying = true →
      5 ≤ (visibleCards data
            (run data reducedMotion (init data reducedMotion) evs).activeTab).length) ∧
    (∀ s : State, playDisabled data reducedMotion s = true ↔
      (reducedMotion = true ∨ (visibleCards data s.activeTab).length ≤ 4)) := by
  refine ⟨init_isPlaying data reducedMotion, rfl, ?_, ?_⟩
  · intro evs
    apply run_playing_length
    intro h
    rw [init_isPlaying] at h
    exact absurd h (by decide)
  · intro s
    simp [playDisabled]

/-- Witness for C11: five cards in `A`, six in `B`; after a press on play,
auto-advance runs and five cards are visible. -/
theorem autoplay_needs_five_cards_witness :
    5 ≤ (visibleCards fiveAndSix
          (run fiveAndSix false (init fiveAndSix false) [.pressPlay]).activeTab).length :=
  (autoplay_needs_five_cards fiveAndSix false).2.2.1 [.pressPlay] (by decide)

/-- C12. For every data list and selected category, the visible cards are exactly
the records whose subtitle equals the category: they form a sublist of the data
(same order), each record occurs as often as in the data when its subtitle is
the category and not at all otherwise; in particular after a tab selection. -/
theorem visibleCards_exact (data : List TechRecord) (activeTab : String) :
    (visibleCards data activeTab).Sublist data ∧
    (∀ item : TechRecord, item ∈ visibleCards data activeTab ↔
      item ∈ data ∧ item.subtitle = some activeTab) ∧
    (∀ item : TechRecord, (visibleCards data activeTab).count item =
      if item.subtitle = some activeTab then data.count item else 0) ∧
    (∀ (reducedMotion : Bool) (s : State),
      visibleCards data (step data reducedMotion s (.selectTab activeTab)).activeTab
        = data.filter (fun item => item.subtitle == some activeTab)) := by
  refine ⟨List.filter_sublist _, ?_, ?_, ?_⟩
  · intro item
    simp [visibleCards, List.mem_filter]
  · intro item
    unfold visibleCards
    split_ifs with h
    · exact List.count_filter (by simp [h])
    · rw [List.count_eq_zero, List.mem_filter]
      rintro ⟨-, hp⟩
      exact h (by simpa using hp)
  · intro reducedMotion s
    have h : (step data reducedMotion s (.selectTab activeTab)).activeTab = activeTab := by
      unfold step
      simp only []
      split_ifs <;> rfl
    rw [h]
    rfl

theorem step_cardWidth (data : List TechRecord) (reducedMotion : Bool) (s : State)
    (e : Event) (h : 1 ≤ s.cardWidth) : 1 ≤ (step data reducedMotion s e).cardWidth := by
  have hh : 1 ≤ (handle data reducedMotion s e).cardWidth := by
    cases e with
    | pressPlay =>
      unfold handle
      split_ifs <;> exact h
    | selectTab cat => exact h
    | enter => exact h
    | cardResize w => exact le_max_left 1 w
  unfold step
  simp only []
  split_ifs <;> exact hh

theorem run_cardWidth (data : List TechRecord) (reducedMotion : Bool) (evs : List Event) :
    ∀ s : State, 1 ≤ s.cardWidth → 1 ≤ (run data reducedMotion s evs).cardWidth := by
  induction evs with
  | nil => intro s h; exact h
  | cons e es ih => intro s h; exact ih _ (step_cardWidth data reducedMotion s e h)

/-- C17. One tick with `step = cardWidth`: when
`scrollLeft + clientWidth ≥ scrollWidth - step` the strip is sent back to offset
`0`; otherwise it is scrolled by exactly one step and the requested offset
`scrollLeft + step` is strictly below the last offset `scrollWidth - clientWidth`
(and, as `step ≥ 1`, strictly ahead of `scrollLeft`). In every reachable state
`cardWidth ≥ 1`. -/
theorem tick_wraps_or_advances (cardWidth : Int) (wrap : Scroller) :
    (wrap.scrollLeft + wrap.clientWidth ≥ wrap.scrollWidth - cardWidth →
      tick cardWidth wrap = .scrollTo 0 ∧ (tick cardWidth wrap).target wrap = 0) ∧
    (wrap.scrollLeft + wrap.clientWidth < wrap.scrollWidth - cardWidth →
      tick cardWidth wrap = .scrollBy cardWidth ∧
      (tick cardWidth wrap).target wrap = wrap.scrollLeft + cardWidth ∧
      (tick cardWidth wrap).target wrap < wrap.scrollWidth - wrap.clientWidth ∧
      (1 ≤ cardWidth → wrap.scrollLeft < (tick cardWidth wrap).target wrap)) ∧
    (∀ (data : List TechRecord) (reducedMotion : Bool) (evs : List Event),
      1 ≤ (run data reducedMotion (init data reducedMotion) evs).cardWidth) := by
  refine ⟨?_, ?_, ?_⟩
  · intro h
    have ht : tick cardWidth wrap = .scrollTo 0 := by
      simp [tick, h]
    rw [ht]
    exact ⟨rfl, rfl⟩
  · intro h
    have ht : tick cardWidth wrap = .scrollBy cardWidth := by
      have hn : ¬ (wrap.scrollWidth - cardWidth ≤ wrap.scrollLeft + wrap.clientWidth) := by
        omega
      simp [tick, hn]
    rw [ht]
    refine ⟨rfl, rfl, ?_, ?_⟩
    · show wrap.scrollLeft + cardWidth < wrap.scrollWidth - wrap.clientWidth
      omega
    · intro h1
      show wrap.scrollLeft < wrap.scrollLeft + cardWidth
      omega
  · intro data reducedMotion evs
    have h260 : (1 : Int) ≤ 260 := by decide
    exact run_cardWidth data reducedMotion evs _ h260

/-- Witness for C17: a strip of width 2000 seen through 800, cards of 260, at
offset 0: the tick asks for offset 260. -/
theorem tick_wraps_or_advances_witness :
    (tick 260 { scrollLeft := 0, clientWidth := 800, scrollWidth := 2000 }).target
        { scrollLeft := 0, clientWidth := 800, scrollWidth := 2000 } = 260 ∧
    (tick 260 { scrollLeft := 1000, clientWidth := 800, scrollWidth := 2000 }).target
        { scrollLeft := 1000, clientWidth := 800, scrollWidth := 2000 } = 0 :=
  ⟨((tick_wraps_or_advances 260
      { scrollLeft := 0, clientWidth := 800, scrollWidth := 2000 }).2.1 (by decide)).2.1,
   ((tick_wraps_or_advances 260
      { scrollLeft := 1000, clientWidth := 800, scrollWidth := 2000 }).1 (by decide)).2⟩

/-! ## Categories -/

theorem categories_snoc_none (pre : List TechRecord) (item : TechRecord)
    (h : item.subtitle = none) : categories (pre ++ [item]) = categories pre := by
  unfold categories
  rw [List.foldl_append]
  simp [h]

theorem categories_snoc_empty (pre : List TechRecord) (item : TechRecord)
    (h : item.subtitle = some "") : categories (pre ++ [item]) = categories pre := by
  unfold categories
  rw [List.foldl_append]
  simp [h]

theorem categories_snoc_seen (pre : List TechRecord) (item : TechRecord) (sub : String)
    (h : item.subtitle = some sub) (hne : sub ≠ "") (hm : sub ∈ categories pre) :
    categories (pre ++ [item]) = categories pre := by
  unfold categories at hm ⊢
  rw [List.foldl_append]
  simp only [List.foldl_cons, List.foldl_nil, h]
  rw [if_pos hne, if_pos hm]

theorem categories_snoc_new (pre : List TechRecord) (item : TechRecord) (sub : String)
    (h : item.subtitle = some sub) (hne : sub ≠ "") (hm : sub ∉ categories pre) :
    categories (pre ++ [item]) = categories pre ++ [sub] := by
  unfold categories at hm ⊢
  rw [List.foldl_append]
  simp only [List.foldl_cons, List.foldl_nil, h]
  rw [if_pos hne, if_neg hm]

theorem truthySubtitles_cons_skip (item : TechRecord) (rest : List TechRecord)
    (h : item.subtitle = none ∨ item.subtitle = some "") :
    truthySubtitles (item :: rest) = truthySubtitles rest := by
  rcases h with h | h <;> simp [truthySubtitles, List.filterMap_cons, h]

theorem truthySubtitles_cons_keep (item : TechRecord) (rest : List TechRecord) (sub : String)
    (h : item.subtitle = some sub) (hne : sub ≠ "") :
    truthySubtitles (item :: rest) = sub :: truthySubtitles rest := by
  simp [truthySubtitles, List.filterMap_cons, h, hne]

/-- The categories of a list continued by `data`: those already found, then the
first occurrences among the new truthy subtitles that were not found before. -/
theorem categories_append (data : List TechRecord) :
    ∀ pre : List TechRecord,
      categories (pre ++ data) = categories pre ++
        (firstSeen (truthySubtitles data)).filter (fun c => decide (c ∉ categories pre)) := by
  induction data with
  | nil => intro pre; simp [truthySubtitles, firstSeen]
  | cons item rest ih =>
    intro pre
    have hsplit : pre ++ item :: rest = (pre ++ [item]) ++ rest := by simp
    rw [hsplit, ih (pre ++ [item])]
    cases hsub : item.subtitle with
    | none =>
      rw [categories_snoc_none pre item hsub, truthySubtitles_cons_skip item rest (Or.inl hsub)]
    | some sub =>
      by_cases hne : sub = ""
      · subst hne
        rw [categories_snoc_empty pre item hsub,
          truthySubtitles_cons_skip item rest (Or.inr hsub)]
      · rw [truthySubtitles_cons_keep item rest sub hsub hne]
        by_cases hm : sub ∈ categories pre
        · rw [categories_snoc_seen pre item sub hsub hne hm]
          congr 1
          simp only [firstSeen, List.filter_cons, hm, not_true_eq_false, decide_False,
            Bool.false_eq_true, if_false, List.filter_filter]
          apply List.filter_congr
          intro y _
          by_cases hy : y ∈ categories pre
          · simp [hy]
          · have : y ≠ sub := fun e => hy (e ▸ hm)
            simp [hy, this]
        · rw [categories_snoc_new pre item sub hsub hne hm, List.append_assoc]
          congr 1
          simp only [firstSeen, List.filter_cons, hm, not_false_eq_true, decide_True,
            if_true, List.filter_filter, List.singleton_append]
          congr 1
          apply List.filter_congr
          intro y _
          simp [List.mem_append, not_or]

theorem mem_firstSeen (l : List String) : ∀ x, x ∈ firstSeen l ↔ x ∈ l := by
  induction l with
  | nil => intro x; simp [firstSeen]
  | cons a xs ih =>
    intro x
    simp only [firstSeen, List.mem_cons, List.mem_filter, ih, decide_eq_true_eq]
    constructor
    · rintro (h | ⟨h, -⟩)
      · exact Or.inl h
      · exact Or.inr h
    · intro h
      by_cases hx : x = a
      · exact Or.inl hx
      · rcases h with h | h
        · exact absurd h hx
        · exact Or.inr ⟨h, hx⟩

theorem firstSeen_nodup (l : List String) : (firstSeen l).Nodup := by
  induction l with
  | nil => simp [firstSeen]
  | cons a xs ih =>
    simp only [firstSeen, List.nodup_cons, List.mem_filter, decide_eq_true_eq]
    exact ⟨fun h => h.2 rfl, ih.filter _⟩

theorem mem_truthySubtitles (data : List TechRecord) (c : String) :
    c ∈ truthySubtitles data ↔ c ≠ "" ∧ ∃ item ∈ data, item.subtitle = some c := by
  unfold truthySubtitles
  rw [List.mem_filterMap]
  constructor
  · rintro ⟨item, hmem, hf⟩
    cases hsub : item.subtitle with
    | none => simp [hsub] at hf
    | some sub =>
      by_cases hne : sub = ""
      · simp [hsub, hne] at hf
      · simp only [hsub, ne_eq, hne, not_false_eq_true, if_true, Option.some.injEq] at hf
        subst hf
        exact ⟨hne, item, hmem, hsub⟩
  · rintro ⟨hne, item, hmem, hsub⟩
    exact ⟨item, hmem, by simp [hsub, hne]⟩

theorem categories_eq_firstSeen (data : List TechRecord) :
    categories data = firstSeen (truthySubtitles data) := by
  have h := categories_append data []
  have hnil : categories [] = [] := rfl
  rw [List.nil_append, hnil] at h
  rw [h, List.nil_append]
  apply List.filter_eq_self.mpr
  intro c _
  simp

/-- C13. The category list is the list of distinct non-empty subtitles of the data
in order of first occurrence: it equals `firstSeen` of the truthy subtitles, has
no duplicates, contains exactly the non-empty subtitles that occur, and is only
extended at its end when more records follow (a subtitle seen again keeps its
place; records without subtitle add nothing). The initially selected category
is its first element, or the empty string when it is empty. -/
theorem categories_first_seen (data : List TechRecord) (reducedMotion : Bool) :
    categories data = firstSeen (truthySubtitles data) ∧
    (categories data).Nodup ∧
    (∀ c : String, c ∈ categories data ↔
      c ≠ "" ∧ ∃ item ∈ data, item.subtitle = some c) ∧
    (∀ more : List TechRecord, ∃ t, categories (data ++ more) = categories data ++ t) ∧
    (init data reducedMotion).activeTab = (categories data).headD "" ∧
    (categories data = [] → (init data reducedMotion).activeTab = "") ∧
    (∀ c cs, categories data = c :: cs → (init data reducedMotion).activeTab = c) := by
  have hinit : (init data reducedMotion).activeTab = (categories data).headD "" := rfl
  refine ⟨categories_eq_firstSeen data, ?_, ?_, ?_, hinit, ?_, ?_⟩
  · rw [categories_eq_firstSeen]
    exact firstSeen_nodup _
  · intro c
    rw [categories_eq_firstSeen, mem_firstSeen, mem_truthySubtitles]
  · intro more
    exact ⟨_, categories_append more data⟩
  · intro h
    rw [hinit, h]
    rfl
  · intro c cs h
    rw [hinit, h]
    rfl

/-- Witness for C13: the sample data has categories `A`, `B` and starts on `A`. -/
theorem categories_first_seen_witness : (init fiveAndSix false).activeTab = "A" :=
  (categories_first_seen fiveAndSix false).2.2.2.2.2.2 "A" ["B"] (by decide)

/-! ## Tab keys -/

theorem tabTarget_right (count idx : Nat) :
    tabTarget count "ArrowRight" idx = (((idx + 1) % count : Nat) : Int) := by
  have h : tabTarget count "ArrowRight" idx = Int.tmod ((idx : Int) + 1) count := by
    simp [tabTarget]
  rw [h, Int.ofNat_tmod]
  rfl

theorem tabTarget_left (count idx : Nat) (hc : 1 ≤ count) :
    tabTarget count "ArrowLeft" idx = (((idx + count - 1) % count : Nat) : Int) := by
  have h : tabTarget count "ArrowLeft" idx = Int.tmod ((idx : Int) - 1 + count) count := by
    simp [tabTarget]
  have hcast : (idx : Int) - 1 + count = ((idx + count - 1 : Nat) : Int) := by omega
  rw [h, hcast, Int.ofNat_tmod]

theorem tabTarget_home (count idx : Nat) : tabTarget count "Home" idx = ((0 : Nat) : Int) := by
  simp [tabTarget]

theorem tabTarget_end (count idx : Nat) (hc : 1 ≤ count) :
    tabTarget count "End" idx = ((count - 1 : Nat) : Int) := by
  have h : tabTarget count "End" idx = (count : Int) - 1 := by
    simp [tabTarget]
  rw [h]
  omega

theorem tabTarget_other (count : Int) (key : String) (idx : Int)
    (h1 : key ≠ "ArrowRight") (h2 : key ≠ "ArrowLeft") (h3 : key ≠ "Home")
    (h4 : key ≠ "End") : tabTarget count key idx = idx := by
  simp [tabTarget, h1, h2, h3, h4]

/-- When the tab that receives the key is the selected one, the handler leaves
the category at the computed index selected. -/
theorem onTabKeyDown_select (data : List TechRecord) (s : State) (key : String)
    (idx n : Nat) (hn : n < (categories data).length)
    (hact : (categories data)[idx]? = some s.activeTab)
    (ht : tabTarget (categories data).length key idx = (n : Int)) :
    (categories data)[n]? = some (onTabKeyDown data s key idx).activeTab := by
  have hc : (categories data).length ≠ 0 := by omega
  unfold onTabKeyDown
  simp only [hc, if_false, ht]
  by_cases hni : n = idx
  · subst hni
    simp [hact]
  · have hne : ((n : Int) ≠ (idx : Int)) := by exact_mod_cast hni
    rw [if_pos hne, Int.toNat_ofNat, List.getElem?_eq_getElem hn]

theorem onTabKeyDown_noop (data : List TechRecord) (s : State) (key : String) (idx : Nat)
    (h : tabTarget (categories data).length key idx = (idx : Int)) :
    onTabKeyDown data s key idx = s := by
  unfold onTabKeyDown
  simp only [h, ne_eq, not_true_eq_false, if_false]
  split_ifs <;> rfl

/-- C14 (the code departs from the claim). Categories `A`, `B`, tab `A` selected
and focused. ArrowRight on tab `0` selects `B`; the handler does not move focus,
so the next key is again received by tab `0`. There Home computes
`next = 0 = idx` and selects nothing: `B` stays selected instead of
`categories[0] = A`, and a second ArrowRight selects `B` again instead of
cycling on. -/
theorem home_ignored_after_arrow_right :
    (init fiveAndSix false).activeTab = "A" ∧
    (categories fiveAndSix)[0]? = some "A" ∧
    (onTabKeyDown fiveAndSix (init fiveAndSix false) "ArrowRight" 0).activeTab = "B" ∧
    (onTabKeyDown fiveAndSix
      (onTabKeyDown fiveAndSix (init fiveAndSix false) "ArrowRight" 0) "Home" 0).activeTab
        = "B" ∧
    (onTabKeyDown fiveAndSix
      (onTabKeyDown fiveAndSix (init fiveAndSix false) "ArrowRight" 0)
        "ArrowRight" 0).activeTab = "B" := by
  decide

end StackTabs

/-! ## The scroll spy -/

namespace Navbar

theorem NavItem.id_ne_empty (t : NavItem) : t.id ≠ "" := by
  cases t <;> decide

/-- The head of the sorted intersecting entries is a most visible one. -/
theorem mostVisible_spec (entries : List Entry) (e : Entry)
    (h : mostVisible entries = some e) :
    e ∈ entries ∧ e.isIntersecting = true ∧
    ∀ x ∈ entries, x.isIntersecting = true → x.intersectionRatio ≤ e.intersectionRatio := by
  unfold mostVisible at h
  have hsorted := List.sorted_insertionSort moreVisible
    (entries.filter (fun e => e.isIntersecting))
  have hmem : ∀ x, x ∈ (entries.filter (fun e => e.isIntersecting)).insertionSort moreVisible
      ↔ x ∈ entries ∧ x.isIntersecting = true := by
    intro x
    rw [List.mem_insertionSort, List.mem_filter]
  cases hl : (entries.filter (fun e => e.isIntersecting)).insertionSort moreVisible with
  | nil => rw [hl] at h; simp at h
  | cons a t =>
    rw [hl] at h hsorted
    have hae : a = e := by simpa using h
    subst hae
    have ha := (hmem a).mp (by rw [hl]; exact List.mem_cons_self _ _)
    refine ⟨ha.1, ha.2, ?_⟩
    intro x hx hxi
    have hxm : x ∈ a :: t := by rw [← hl]; exact (hmem x).mpr ⟨hx, hxi⟩
    rcases List.mem_cons.mp hxm with rfl | hxt
    · exact le_refl _
    · exact List.rel_of_sorted_cons hsorted x hxt

theorem mostVisible_eq_none_iff (entries : List Entry) :
    mostVisible entries = none ↔ ∀ e ∈ entries, e.isIntersecting = false := by
  unfold mostVisible
  rw [List.head?_eq_none_iff]
  constructor
  · intro h e he
    by_contra hne
    have hm : e ∈ (entries.filter (fun e => e.isIntersecting)).insertionSort moreVisible := by
      rw [List.mem_insertionSort, List.mem_filter]
      exact ⟨he, by simpa using hne⟩
    rw [h] at hm
    simp at hm
  · intro h
    have hf : entries.filter (fun e => e.isIntersecting) = [] := by
      rw [List.filter_eq_nil_iff]
      intro e he
      simp [h e he]
    rw [hf]
    rfl

/-- C15. After an observer callback the active id is the id of an intersecting
reported entry whose ratio is the greatest among the intersecting ones; when no
reported entry is intersecting the state is unchanged; with a single
intersecting section the active id is that section's id. The menu state is
never touched. -/
theorem active_is_most_visible (s : State) (entries : List Entry) :
    ((∀ e ∈ entries, e.isIntersecting = false) → onIntersect s entries = s) ∧
    ((∃ e ∈ entries, e.isIntersecting = true) →
      ∃ e ∈ entries, e.isIntersecting = true ∧
        (∀ x ∈ entries, x.isIntersecting = true →
          x.intersectionRatio ≤ e.intersectionRatio) ∧
        (onIntersect s entries).activeId = e.target.id) ∧
    (∀ e ∈ entries, e.isIntersecting = true →
      (∀ x ∈ entries, x.isIntersecting = true → x.target = e.target) →
      (onIntersect s entries).activeId = e.target.id) ∧
    (onIntersect s entries).isOpen = s.isOpen := by
  have hsome : ∀ v, mostVisible entries = some v →
      onIntersect s entries = { s with activeId := v.target.id } := by
    intro v hv
    unfold onIntersect
    rw [hv]
    simp [NavItem.id_ne_empty]
  have hex : (∃ e ∈ entries, e.isIntersecting = true) → ∃ v, mostVisible entries = some v := by
    rintro ⟨e, he, hi⟩
    cases hm : mostVisible entries with
    | none =>
      have := (mostVisible_eq_none_iff entries).mp hm e he
      rw [hi] at this
      exact absurd this (by decide)
    | some v => exact ⟨v, rfl⟩
  refine ⟨?_, ?_, ?_, ?_⟩
  · intro h
    unfold onIntersect
    rw [(mostVisible_eq_none_iff entries).mpr h]
  · intro h
    obtain ⟨v, hv⟩ := hex h
    have hspec := mostVisible_spec entries v hv
    exact ⟨v, hspec.1, hspec.2.1, hspec.2.2, by rw [hsome v hv]⟩
  · intro e he hi hall
    obtain ⟨v, hv⟩ := hex ⟨e, he, hi⟩
    have hspec := mostVisible_spec entries v hv
    rw [hsome v hv]
    show v.target.id = e.target.id
    rw [hall v hspec.1 hspec.2.1]
  · cases hm : mostVisible entries with
    | none =>
      unfold onIntersect
      rw [hm]
    | some v => rw [hsome v hm]

/-- Witness for C15: `about` left the band and `stack` alone intersects it. -/
theorem active_is_most_visible_witness :
    (onIntersect init
      [{ target := .about, isIntersecting := false, intersectionRatio := 0 },
       { target := .stack, isIntersecting := true, intersectionRatio := 1 }]).activeId
      = "stack" :=
  (active_is_most_visible init
      [{ target := .about, isIntersecting := false, intersectionRatio := 0 },
       { target := .stack, isIntersecting := true, intersectionRatio := 1 }]).2.2.1
    { target := .stack, isIntersecting := true, intersectionRatio := 1 }
    (by simp) rfl (by simp)

end Navbar

end Portfolio
